import Mathlib

/-!
Verification development for the Soltren terminal raycaster.

The Rust source is shallowly embedded in Lean 4:
* `f64` values become exact rationals (`ℚ`); `f64::MAX` becomes the exact
  rational value of that constant.
* Rust numeric casts `f64 as i32` / `f64 as u8` become truncation toward
  zero with saturation to the target range (Rust cast semantics).
* `Vec<T>` becomes `List T`; in-range indexing becomes `List.getD`.
* The unbounded DDA `while` loop of `render_frame` becomes a fuel-indexed
  recursion; a fuel bound computed from the grid extent is proved
  sufficient, which is exactly the loop-termination content.
-/

namespace Soltren

/-- Material tags of grid cells.  The tag set is the one matched on in
`render_frame` (src/raycaster.rs): `Empty` is passable, every other tag is
opaque, and `OutOfBounds` is the border sentinel of the grid. -/
inductive Material
  | Empty
  | SolidWall
  | BrickWall
  | StoneWall
  | WoodWall
  | OutOfBounds
  deriving DecidableEq, Repr

/-- Terminal colors, as in the `crossterm::style::Color` enum used by the
renderer: the named palette, a 256-color `AnsiValue`, and 24-bit `Rgb`. -/
inductive Color
  | Reset
  | Black
  | DarkGrey
  | Red
  | DarkRed
  | Green
  | DarkGreen
  | Yellow
  | DarkYellow
  | Blue
  | DarkBlue
  | Magenta
  | DarkMagenta
  | Cyan
  | DarkCyan
  | White
  | Grey
  | AnsiValue (n : ℕ)
  | Rgb (r g b : ℕ)
  deriving DecidableEq, Repr

/-- A 2-dimensional vector (src/math.rs), with `f64` components embedded as
rationals. -/
structure Vector2D where
  x : ℚ
  y : ℚ
  deriving DecidableEq, Repr

/-- Vector addition (src/math.rs, `impl Add for Vector2D`). -/
def Vector2D.add (a b : Vector2D) : Vector2D := ⟨a.x + b.x, a.y + b.y⟩

/-- Scaling by a scalar (src/math.rs, `impl Mul<f64> for Vector2D`). -/
def Vector2D.smul (a : Vector2D) (s : ℚ) : Vector2D := ⟨a.x * s, a.y * s⟩

/-- The player/camera state read by the raycaster (src/player.rs): position,
facing direction and camera plane.  The movement/rotation speeds are not
read by the rendering core and are omitted. -/
structure Player where
  position : Vector2D
  direction : Vector2D
  camera_plane : Vector2D
  deriving DecidableEq, Repr

/-- Modelled from the spec: the tile grid (`src/map.rs` is not part of the
sources; only its interface is described).  A finite extent of cells
together with the total query `get`, which returns the opaque `OutOfBounds`
material for every coordinate outside the extent and never fails. -/
structure Map where
  width : ℕ
  height : ℕ
  cells : ℕ → ℕ → Material

/-- Modelled from the spec: total grid query.  `get(x, y)` returns the
stored material inside the extent and `OutOfBounds` everywhere else
(in the Rust caller a negative `i32` coordinate wraps, via `as usize`, to a
huge index that is likewise outside the extent). -/
def Map.get (m : Map) (x y : ℤ) : Material :=
  if 0 ≤ x ∧ x < (m.width : ℤ) ∧ 0 ≤ y ∧ y < (m.height : ℤ) then
    m.cells x.toNat y.toNat
  else
    Material.OutOfBounds

/-- Truncation of a rational toward zero, the rounding used by Rust
`f64 as i32` / `f64 as u8` casts: the truncating integer division of the
numerator by the denominator.  `ratTrunc_eq` below identifies it with the
ceiling for negative arguments and the floor otherwise. -/
def ratTrunc (q : ℚ) : ℤ := Int.tdiv q.num (q.den : ℤ)

/-- Rust `f64 as i32`: truncation toward zero, saturated to the `i32`
range. -/
def ratToI32 (q : ℚ) : ℤ := max (-(2 ^ 31)) (min (2 ^ 31 - 1) (ratTrunc q))

/-- Rust `f64 as u8`: truncation toward zero, saturated to `[0, 255]`. -/
def ratToU8 (q : ℚ) : ℕ := (min 255 (max 0 (ratTrunc q))).toNat

/-- The exact rational value of `f64::MAX`, the sentinel used by
`render_frame` for the delta distance of a zero ray component. -/
def f64MAX : ℚ := (2 ^ 53 - 1) * 2 ^ 971

/-! ## Frame surface (src/renderer/buffer.rs) -/

/-- The frame buffer (src/renderer/buffer.rs): a row-major grid of glyphs
with per-cell foreground and background colors.  The three `Vec`s are
embedded as lists. -/
structure FrameBuffer where
  width : ℕ
  height : ℕ
  buffer : List Char
  fg_colors : List Color
  bg_colors : List Color
  deriving DecidableEq, Repr

namespace FrameBuffer

/-- `FrameBuffer::new(width, height)`. -/
def new (width height : ℕ) : FrameBuffer :=
  let size := width * height
  { width := width
    height := height
    buffer := List.replicate size ' '
    fg_colors := List.replicate size Color.Reset
    bg_colors := List.replicate size Color.Reset }

/-- `Vec::resize(len, pad)`: truncate to `len` when shrinking, pad with
`pad` when growing. -/
def listResize {α : Type} (l : List α) (n : ℕ) (pad : α) : List α :=
  l.take n ++ List.replicate (n - l.length) pad

/-- `FrameBuffer::resize(width, height)`: no-op when the dimensions are
unchanged, otherwise resize all three buffers in place. -/
def resize (fb : FrameBuffer) (width height : ℕ) : FrameBuffer :=
  if fb.width = width ∧ fb.height = height then fb
  else
    let size := width * height
    { width := width
      height := height
      buffer := listResize fb.buffer size ' '
      fg_colors := listResize fb.fg_colors size Color.Reset
      bg_colors := listResize fb.bg_colors size Color.Reset }

/-- `FrameBuffer::set(x, y, ch, fg, bg)`: bounds-checked write, silently
ignored when `(x, y)` is out of range. -/
def set (fb : FrameBuffer) (x y : ℕ) (ch : Char) (fg bg : Color) : FrameBuffer :=
  if x < fb.width ∧ y < fb.height then
    let idx := y * fb.width + x
    { fb with
      buffer := fb.buffer.set idx ch
      fg_colors := fb.fg_colors.set idx fg
      bg_colors := fb.bg_colors.set idx bg }
  else fb

/-- `FrameBuffer::clear()`: two-tone background, ceiling rows then floor
rows (src/renderer/buffer.rs). -/
def clear (fb : FrameBuffer) : FrameBuffer :=
  let half := fb.height / 2
  let w := fb.width
  let fbCeil := (List.range half).foldl
    (fun f y => (List.range w).foldl
      (fun g x => g.set x y ' ' Color.Reset (Color.AnsiValue 234)) f) fb
  ((List.range (fb.height - half)).map (· + half)).foldl
    (fun f y => (List.range w).foldl
      (fun g x => g.set x y ' ' Color.Reset (Color.AnsiValue 238)) f) fbCeil

/-- The cell observed at `(x, y)`: glyph, foreground and background color. -/
def getCell (fb : FrameBuffer) (x y : ℕ) : Char × Color × Color :=
  let idx := y * fb.width + x
  (fb.buffer.getD idx ' ', fb.fg_colors.getD idx Color.Reset,
   fb.bg_colors.getD idx Color.Reset)

/-- The buffer-length invariant: each of the three flat buffers has length
`width * height`. -/
def sizeInv (fb : FrameBuffer) : Prop :=
  fb.buffer.length = fb.width * fb.height ∧
  fb.fg_colors.length = fb.width * fb.height ∧
  fb.bg_colors.length = fb.width * fb.height

end FrameBuffer

/-! ### Flush (`FrameBuffer::render`, src/renderer/buffer.rs lines 75-110)

The render method queues commands on the output sink; the embedding makes
the queued command sequence explicit as a list of directives. -/

/-- One command queued on the display sink by `FrameBuffer::render`. -/
inductive Directive
  | hideCursor
  | moveTo (col row : ℕ)
  | setFg (c : Color)
  | setBg (c : Color)
  | print (s : String)
  | flushOut
  deriving DecidableEq, Repr

/-- One row of cells, in drawing order: `(glyph, fg, bg)` per cell. -/
def FrameBuffer.rowCells (fb : FrameBuffer) (y : ℕ) : List (Char × Color × Color) :=
  (List.range fb.width).map fun x => fb.getCell x y

/-- The inner `for x` loop of `FrameBuffer::render`: emit a foreground or
background change only when it differs from the tracked current color,
then print the glyph; returns the directives together with the updated
current colors. -/
def rowDirs : List (Char × Color × Color) → Color → Color →
    List Directive × Color × Color
  | [], cfg, cbg => ([], cfg, cbg)
  | c :: rest, cfg, cbg =>
    let ds := (if c.2.1 ≠ cfg then [Directive.setFg c.2.1] else []) ++
      (if c.2.2 ≠ cbg then [Directive.setBg c.2.2] else []) ++
      [Directive.print (String.mk [c.1])]
    let rec_ := rowDirs rest c.2.1 c.2.2
    (ds ++ rec_.1, rec_.2)

/-- The outer `for y` loop of `FrameBuffer::render`: after every row but
the last, both colors are unconditionally reset and a line break is
printed. -/
def rowsDirs : List (List (Char × Color × Color)) → Color → Color → List Directive
  | [], _, _ => []
  | [r], cfg, cbg => (rowDirs r cfg cbg).1
  | r :: rs, cfg, cbg =>
    (rowDirs r cfg cbg).1 ++
      [Directive.setFg Color.Reset, Directive.setBg Color.Reset,
        Directive.print "\r\n"] ++
      rowsDirs rs Color.Reset Color.Reset

/-- The full directive sequence queued by one `FrameBuffer::render` call:
hide cursor, move to the origin, the rows (starting from the `Reset`
current colors), and the trailing stream flush. -/
def FrameBuffer.renderDirectives (fb : FrameBuffer) : List Directive :=
  [Directive.hideCursor, Directive.moveTo 0 0] ++
    rowsDirs ((List.range fb.height).map fb.rowCells) Color.Reset Color.Reset ++
    [Directive.flushOut]

/-- Color-change directives (`SetForegroundColor` / `SetBackgroundColor`)
in a directive list. -/
def isColorDir : Directive → Bool
  | Directive.setFg _ => true
  | Directive.setBg _ => true
  | _ => false

/-- Number of color-change directives emitted. -/
def countColorDirs (l : List Directive) : ℕ := l.countP isColorDir

/-- The display sink at the `Write` boundary: the commands accepted so far,
and an optional index at which the sink starts failing (an I/O failure is
the only fallible step of the render path). -/
structure Sink where
  accepted : List Directive
  failAt : Option ℕ
  deriving DecidableEq, Repr

/-- Queue one command on the sink; fails exactly when the sink's failure
index is reached. -/
def Sink.queue (s : Sink) (d : Directive) : Option Sink :=
  if s.failAt = some s.accepted.length then none
  else some { s with accepted := s.accepted ++ [d] }

/-- Queue a directive list until the first failure; returns the sink state
reached and whether every command was accepted. -/
def Sink.consume (s : Sink) : List Directive → Sink × Bool
  | [] => (s, true)
  | d :: ds =>
    match s.queue d with
    | none => (s, false)
    | some s1 => s1.consume ds

/-- A `FrameBuffer::render` call as the caller observes it: the method
borrows the buffer immutably (`&self`), so the caller's buffer after the
call is the very buffer it passed in, while the sink advances through the
queued directives until its first failure.  The `Bool` is `false` exactly
when the call returns the propagated I/O error. -/
def runRender (fb : FrameBuffer) (s : Sink) : FrameBuffer × Sink × Bool :=
  let r := s.consume fb.renderDirectives
  (fb, r.1, r.2)

/-- The frame-buffer operations whose sequences claim C7 quantifies over. -/
inductive FBOp
  | resize (width height : ℕ)
  | clear
  | set (x y : ℕ) (ch : Char) (fg bg : Color)

/-- Apply one frame-buffer operation. -/
def applyOp (fb : FrameBuffer) : FBOp → FrameBuffer
  | FBOp.resize w h => fb.resize w h
  | FBOp.clear => fb.clear
  | FBOp.set x y ch fg bg => fb.set x y ch fg bg

/-! ## Raycaster (src/raycaster.rs) -/

/-- Ray direction for screen column `x` of a screen of width `w`:
`camera_x = 2 * x / w - 1`, `ray_dir = direction + camera_plane * camera_x`
(src/raycaster.rs lines 15-16). -/
def rayDir (p : Player) (x w : ℕ) : Vector2D :=
  let cameraX : ℚ := 2 * (x : ℚ) / (w : ℚ) - 1
  p.direction.add (p.camera_plane.smul cameraX)

/-- The starting grid cell of the DDA walk:
`(player.position.x as i32, player.position.y as i32)`
(src/raycaster.rs lines 19-20). -/
def startCell (p : Player) : ℤ × ℤ :=
  (ratToI32 p.position.x, ratToI32 p.position.y)

/-- Per-axis delta distance: `|1 / ray_dir|`, with the `f64::MAX` sentinel
when the component is exactly zero (src/raycaster.rs lines 27-28). -/
def deltaDist (c : ℚ) : ℚ := if c = 0 then f64MAX else |1 / c|

/-- Per-axis step direction: `-1` for a negative ray component, `+1`
otherwise (src/raycaster.rs lines 40-53). -/
def stepDir (c : ℚ) : ℤ := if c < 0 then -1 else 1

/-- Per-axis initial side distance, from the sign of the ray component and
the offset of the camera position inside its starting cell
(src/raycaster.rs lines 40-53). -/
def sideDistInit (c pos : ℚ) (cell : ℤ) (dd : ℚ) : ℚ :=
  if c < 0 then (pos - (cell : ℚ)) * dd else ((cell : ℚ) + 1 - pos) * dd

/-- The mutable state of the DDA loop: current grid cell, the two
accumulated side distances, and the axis flag of the last step. -/
structure DDAState where
  mapX : ℤ
  mapY : ℤ
  sideDistX : ℚ
  sideDistY : ℚ
  side : ℕ
  deriving DecidableEq, Repr

/-- One iteration of the DDA loop body: advance the axis with the smaller
accumulated side distance (src/raycaster.rs lines 58-66). -/
def ddaStep (stepX stepY : ℤ) (dx dy : ℚ) (s : DDAState) : DDAState :=
  if s.sideDistX < s.sideDistY then
    { s with sideDistX := s.sideDistX + dx, mapX := s.mapX + stepX, side := 0 }
  else
    { s with sideDistY := s.sideDistY + dy, mapY := s.mapY + stepY, side := 1 }

/-- The DDA `while !hit` loop (src/raycaster.rs lines 56-73), as a
fuel-indexed recursion: step, query the grid at the new cell, stop when the
material is not `Empty`.  `none` means the fuel ran out, which
`ddaFuel_sufficient` below proves never happens for the fuel used by
`castColumn`. -/
def dda (m : Map) (stepX stepY : ℤ) (dx dy : ℚ) :
    ℕ → DDAState → Option (DDAState × Material)
  | 0, _ => none
  | n + 1, s =>
    let s1 := ddaStep stepX stepY dx dy s
    let mat := m.get s1.mapX s1.mapY
    if mat ≠ Material.Empty then some (s1, mat)
    else dda m stepX stepY dx dy n s1

/-- An upper bound on the number of steps one axis can take before its
coordinate leaves `[0, bound)`: once it does, the grid returns
`OutOfBounds` and the loop stops. -/
def exitSteps (step : ℤ) (cell : ℤ) (bound : ℕ) : ℕ :=
  if step = 1 then ((bound : ℤ) - cell).toNat + 1 else (cell + 1).toNat + 1

/-- Fuel that provably suffices for the DDA loop on grid `m` starting at
cell `(mx, my)` with steps `(sx, sy)`. -/
def ddaFuel (m : Map) (sx sy : ℤ) (mx my : ℤ) : ℕ :=
  exitSteps sx mx m.width + exitSteps sy my m.height

/-- The per-column result of the DDA walk: perpendicular wall distance,
the material hit, the axis flag, and the final cell. -/
structure RayHit where
  perpWallDist : ℚ
  material : Material
  side : ℕ
  mapX : ℤ
  mapY : ℤ
  deriving DecidableEq, Repr

/-- The per-column ray cast of `render_frame` (src/raycaster.rs lines
13-81): derive the ray, initialize the DDA state, run the loop, and compute
the perpendicular wall distance from the axis of the last step. -/
def castColumn (p : Player) (m : Map) (x w : ℕ) : Option RayHit :=
  let rd := rayDir p x w
  let mapX0 := (startCell p).1
  let mapY0 := (startCell p).2
  let dx := deltaDist rd.x
  let dy := deltaDist rd.y
  let stepX := stepDir rd.x
  let stepY := stepDir rd.y
  let s0 : DDAState :=
    ⟨mapX0, mapY0, sideDistInit rd.x p.position.x mapX0 dx,
      sideDistInit rd.y p.position.y mapY0 dy, 0⟩
  (dda m stepX stepY dx dy (ddaFuel m stepX stepY mapX0 mapY0) s0).map
    fun sm =>
      let s := sm.1
      let perp :=
        if s.side = 0 then
          ((s.mapX : ℚ) - p.position.x + (1 - (stepX : ℚ)) / 2) / rd.x
        else
          ((s.mapY : ℚ) - p.position.y + (1 - (stepY : ℚ)) / 2) / rd.y
      ⟨perp, sm.2, s.side, s.mapX, s.mapY⟩

/-! ## Shading, projection and the per-column stripe (src/raycaster.rs) -/

/-- Base RGB color of each material (src/raycaster.rs lines 96-103). -/
def baseColor : Material → ℕ × ℕ × ℕ
  | Material.SolidWall => (180, 0, 0)
  | Material.BrickWall => (0, 180, 0)
  | Material.StoneWall => (0, 0, 180)
  | Material.WoodWall => (180, 180, 180)
  | Material.OutOfBounds => (50, 50, 50)
  | Material.Empty => (0, 0, 0)

/-- Axis dim factor: `0.7` for a horizontal-line hit (`side = 1`), `1.0`
otherwise (src/raycaster.rs line 106). -/
def dimFactor (side : ℕ) : ℚ := if side = 1 then 7 / 10 else 1

/-- Distance dim factor: `(1 - dist / 20).max(0.1)`
(src/raycaster.rs line 107). -/
def distDim (d : ℚ) : ℚ := max (1 - d / 20) (1 / 10)

/-- One shaded color channel: `(base as f64 * dim_factor * dist_dim) as u8`
(src/raycaster.rs lines 108-114). -/
def shadeChannel (base : ℕ) (side : ℕ) (d : ℚ) : ℕ :=
  ratToU8 ((base : ℚ) * (dimFactor side * distDim d))

/-- The shaded `Color::Rgb` of a hit (src/raycaster.rs lines 110-114). -/
def shadeColor (rgb : ℕ × ℕ × ℕ) (side : ℕ) (d : ℚ) : Color :=
  Color.Rgb (shadeChannel rgb.1 side d) (shadeChannel rgb.2.1 side d)
    (shadeChannel rgb.2.2 side d)

/-- Distance-banded glyph choice (src/raycaster.rs lines 117-125). -/
def glyph (d : ℚ) : Char :=
  if d ≤ 2 then '█' else if d ≤ 4 then '▓' else if d ≤ 8 then '▒' else '░'

/-- `(screen_height / perp_wall_dist) as i32` (src/raycaster.rs line 84).
In `f64`, division of a positive height by zero gives `+inf`, which the
cast saturates to `i32::MAX`; with a zero height `0.0 / 0.0` is NaN, which
casts to `0`.  For a nonzero distance the exact rational quotient is
truncated and saturated as the cast does. -/
def lineHeight (h : ℕ) (perp : ℚ) : ℤ :=
  if perp = 0 then (if h = 0 then 0 else 2 ^ 31 - 1)
  else ratToI32 ((h : ℚ) / perp)

/-- `draw_start`: `-line_height / 2 + height / 2`, clamped below at `0`
(src/raycaster.rs lines 87-90; `/` is Rust `i32` division, which truncates
toward zero). -/
def drawStart (h : ℕ) (lh : ℤ) : ℤ :=
  let d := Int.tdiv (-lh) 2 + Int.tdiv (h : ℤ) 2
  if d < 0 then 0 else d

/-- `draw_end`: `line_height / 2 + height / 2`, clamped above at
`height - 1` (src/raycaster.rs lines 91-94). -/
def drawEnd (h : ℕ) (lh : ℤ) : ℤ :=
  let e := Int.tdiv lh 2 + Int.tdiv (h : ℤ) 2
  if (h : ℤ) ≤ e then (h : ℤ) - 1 else e

/-- The rows of the half-open stripe `draw_start..draw_end` of Rust's
`for y in draw_start..draw_end`. -/
def stripeRows (a b : ℤ) : List ℤ :=
  (List.range (b - a).toNat).map fun i : ℕ => a + (i : ℤ)

/-- The whole per-column body of `render_frame`: cast the ray, project the
hit to a vertical stripe, and write the stripe into the frame buffer
(src/raycaster.rs lines 83-131).  When the fuel-indexed DDA reports `none`
(provably impossible) nothing is drawn. -/
def drawColumn (p : Player) (m : Map) (w h : ℕ) (fb : FrameBuffer) (x : ℕ) :
    FrameBuffer :=
  match castColumn p m x w with
  | none => fb
  | some hit =>
    let lh := lineHeight h hit.perpWallDist
    let ds := drawStart h lh
    let de := drawEnd h lh
    let color := shadeColor (baseColor hit.material) hit.side hit.perpWallDist
    let ch := glyph hit.perpWallDist
    (stripeRows ds de).foldl
      (fun f y => f.set x y.toNat ch color Color.Reset) fb

/-- `render_frame(player, map, frame)` (src/raycaster.rs lines 9-133): one
ray cast and one vertical stripe per screen column.  The screen dimensions
are read once from the frame buffer, as in the source. -/
def render_frame (p : Player) (m : Map) (fb : FrameBuffer) : FrameBuffer :=
  (List.range fb.width).foldl (drawColumn p m fb.width fb.height) fb

/-! ## Concrete instances used by witnesses and counterexamples -/

/-- A frame buffer whose cells all share one glyph and one pair of colors. -/
def mkUniform (w h : ℕ) (fg bg : Color) : FrameBuffer :=
  ⟨w, h, List.replicate (w * h) ' ', List.replicate (w * h) fg,
    List.replicate (w * h) bg⟩

/-- A one-cell-wide corridor: cells `(0, 0) … (0, d-1)` empty, a solid wall
in cell `(0, d)`. -/
def corridor (d : ℕ) : Map :=
  ⟨1, d + 1, fun _ y => if y = d then Material.SolidWall else Material.Empty⟩

/-- A camera centered in cell `(0, 0)` facing exactly along the `+y` axis
with a degenerate (zero) camera plane, so every column's ray is `(0, 1)`. -/
def axisPlayer : Player := ⟨⟨1 / 2, 1 / 2⟩, ⟨0, 1⟩, ⟨0, 0⟩⟩

/-- A camera at the negative-x position `(-1/2, 1/2)` facing `-x`. -/
def negPlayer : Player := ⟨⟨-(1 / 2), 1 / 2⟩, ⟨-1, 0⟩, ⟨0, 0⟩⟩

/-- A 2×2 grid of empty cells (every ray must stop on the border). -/
def openMap : Map := ⟨2, 2, fun _ _ => Material.Empty⟩

/-- A camera centered in cell `(0, 0)` whose ray has a zero x component and
a subnormal-scale y component `1 / f64MAX`. -/
def tinyRayPlayer : Player := ⟨⟨1 / 2, 1 / 2⟩, ⟨0, 1 / f64MAX⟩, ⟨0, 0⟩⟩

/-- A 2×2 grid with a single wall in cell `(1, 1)`. -/
def stairMap : Map :=
  ⟨2, 2, fun x y => if x = 1 ∧ y = 1 then Material.SolidWall else Material.Empty⟩

/-- A camera strictly inside cell `(1, 1)` with the diagonal ray `(1, 1)`. -/
def diagPlayer : Player := ⟨⟨3 / 2, 3 / 2⟩, ⟨1, 1⟩, ⟨0, 0⟩⟩

/-- A camera centered in cell `(0, 0)` facing exactly along `-x` — the
program's default facing direction — with a degenerate (zero) camera
plane, so every column's ray is `(-1, 0)`. -/
def westPlayer : Player := ⟨⟨1 / 2, 1 / 2⟩, ⟨-1, 0⟩, ⟨0, 0⟩⟩

/-! ## Helper lemmas -/

theorem listResize_length {α : Type} (l : List α) (n : ℕ) (pad : α) :
    (FrameBuffer.listResize l n pad).length = n := by
  simp only [FrameBuffer.listResize, List.length_append, List.length_take,
    List.length_replicate]
  omega

theorem set_width (fb : FrameBuffer) (x y : ℕ) (ch : Char) (fg bg : Color) :
    (fb.set x y ch fg bg).width = fb.width := by
  unfold FrameBuffer.set
  split <;> rfl

theorem set_height (fb : FrameBuffer) (x y : ℕ) (ch : Char) (fg bg : Color) :
    (fb.set x y ch fg bg).height = fb.height := by
  unfold FrameBuffer.set
  split <;> rfl

theorem sizeInv_set (fb : FrameBuffer) (x y : ℕ) (ch : Char) (fg bg : Color)
    (h : fb.sizeInv) : (fb.set x y ch fg bg).sizeInv := by
  obtain ⟨h1, h2, h3⟩ := h
  unfold FrameBuffer.set FrameBuffer.sizeInv
  split
  · simpa using ⟨h1, h2, h3⟩
  · exact ⟨h1, h2, h3⟩

theorem sizeInv_foldl {α : Type} (g : FrameBuffer → α → FrameBuffer)
    (hg : ∀ fb a, fb.sizeInv → (g fb a).sizeInv) :
    ∀ (l : List α) (fb : FrameBuffer), fb.sizeInv → (l.foldl g fb).sizeInv := by
  intro l
  induction l with
  | nil => intro fb h; exact h
  | cons a t ih => intro fb h; exact ih (g fb a) (hg fb a h)

theorem sizeInv_new (w h : ℕ) : (FrameBuffer.new w h).sizeInv := by
  refine ⟨?_, ?_, ?_⟩ <;> simp [FrameBuffer.new]

theorem sizeInv_resize (fb : FrameBuffer) (w h : ℕ) (hi : fb.sizeInv) :
    (fb.resize w h).sizeInv := by
  unfold FrameBuffer.resize
  split
  · exact hi
  · exact ⟨listResize_length _ _ _, listResize_length _ _ _,
      listResize_length _ _ _⟩

theorem sizeInv_clear (fb : FrameBuffer) (hi : fb.sizeInv) :
    fb.clear.sizeInv := by
  unfold FrameBuffer.clear
  apply sizeInv_foldl
  · intro fb1 y h1
    apply sizeInv_foldl
    · intro fb2 x h2
      exact sizeInv_set _ _ _ _ _ _ h2
    · exact h1
  · apply sizeInv_foldl
    · intro fb1 y h1
      apply sizeInv_foldl
      · intro fb2 x h2
        exact sizeInv_set _ _ _ _ _ _ h2
      · exact h1
    · exact hi

theorem sizeInv_applyOp (fb : FrameBuffer) (op : FBOp) (hi : fb.sizeInv) :
    (applyOp fb op).sizeInv := by
  cases op with
  | resize w h => exact sizeInv_resize fb w h hi
  | clear => exact sizeInv_clear fb hi
  | set x y ch fg bg => exact sizeInv_set fb x y ch fg bg hi

/-! ## DDA loop lemmas -/

theorem exitSteps_pos (st cell : ℤ) (b : ℕ) : 1 ≤ exitSteps st cell b := by
  unfold exitSteps
  split <;> omega

theorem stepDir_cases (c : ℚ) : stepDir c = -1 ∨ stepDir c = 1 := by
  unfold stepDir
  split
  · exact Or.inl rfl
  · exact Or.inr rfl

theorem exitSteps_dec (st : ℤ) (hst : st = -1 ∨ st = 1) (cell : ℤ) (b : ℕ)
    (h0 : 0 ≤ cell + st) (h1 : cell + st < (b : ℤ)) :
    exitSteps st (cell + st) b + 1 ≤ exitSteps st cell b := by
  unfold exitSteps
  rcases hst with rfl | rfl
  · rw [if_neg (by decide), if_neg (by decide)]
    omega
  · rw [if_pos rfl, if_pos rfl]
    omega

theorem ddaStep_mapX (sx sy : ℤ) (dx dy : ℚ) (s : DDAState) :
    (ddaStep sx sy dx dy s).mapX =
      if s.sideDistX < s.sideDistY then s.mapX + sx else s.mapX := by
  unfold ddaStep
  split <;> rfl

theorem ddaStep_mapY (sx sy : ℤ) (dx dy : ℚ) (s : DDAState) :
    (ddaStep sx sy dx dy s).mapY =
      if s.sideDistX < s.sideDistY then s.mapY else s.mapY + sy := by
  unfold ddaStep
  split <;> rfl

theorem ddaStep_side (sx sy : ℤ) (dx dy : ℚ) (s : DDAState) :
    (ddaStep sx sy dx dy s).side =
      if s.sideDistX < s.sideDistY then 0 else 1 := by
  unfold ddaStep
  split <;> rfl

/-- Termination of the DDA loop: with the per-axis exit-step bound as fuel,
the loop always returns a hit whose material is not `Empty` — each step
moves one coordinate monotonically toward (and then across) the grid
border, where `get` returns the opaque `OutOfBounds`. -/
theorem dda_some (m : Map) (sx sy : ℤ) (dx dy : ℚ)
    (hsx : sx = -1 ∨ sx = 1) (hsy : sy = -1 ∨ sy = 1) :
    ∀ (n : ℕ) (s : DDAState),
      exitSteps sx s.mapX m.width + exitSteps sy s.mapY m.height ≤ n →
      ∃ s1 mat, dda m sx sy dx dy n s = some (s1, mat) ∧
        mat ≠ Material.Empty := by
  intro n
  induction n with
  | zero =>
    intro s hm
    have h1 := exitSteps_pos sx s.mapX m.width
    have h2 := exitSteps_pos sy s.mapY m.height
    omega
  | succ n ih =>
    intro s hm
    by_cases hmat : m.get (ddaStep sx sy dx dy s).mapX
        (ddaStep sx sy dx dy s).mapY = Material.Empty
    · have hb : 0 ≤ (ddaStep sx sy dx dy s).mapX ∧
          (ddaStep sx sy dx dy s).mapX < (m.width : ℤ) ∧
          0 ≤ (ddaStep sx sy dx dy s).mapY ∧
          (ddaStep sx sy dx dy s).mapY < (m.height : ℤ) := by
        by_contra hc
        unfold Map.get at hmat
        rw [if_neg hc] at hmat
        exact absurd hmat (by simp)
      have hdec : exitSteps sx (ddaStep sx sy dx dy s).mapX m.width +
          exitSteps sy (ddaStep sx sy dx dy s).mapY m.height ≤ n := by
        by_cases hlt : s.sideDistX < s.sideDistY
        · have hx1 : (ddaStep sx sy dx dy s).mapX = s.mapX + sx := by
            rw [ddaStep_mapX, if_pos hlt]
          have hy1 : (ddaStep sx sy dx dy s).mapY = s.mapY := by
            rw [ddaStep_mapY, if_pos hlt]
          rw [hx1, hy1] at hb ⊢
          have hd := exitSteps_dec sx hsx s.mapX m.width hb.1 hb.2.1
          omega
        · have hx1 : (ddaStep sx sy dx dy s).mapX = s.mapX := by
            rw [ddaStep_mapX, if_neg hlt]
          have hy1 : (ddaStep sx sy dx dy s).mapY = s.mapY + sy := by
            rw [ddaStep_mapY, if_neg hlt]
          rw [hx1, hy1] at hb ⊢
          have hd := exitSteps_dec sy hsy s.mapY m.height hb.2.2.1 hb.2.2.2
          omega
      obtain ⟨s2, mat, heq, hne⟩ := ih (ddaStep sx sy dx dy s) hdec
      refine ⟨s2, mat, ?_, hne⟩
      simp only [dda, hmat, ne_eq, not_true_eq_false, if_false]
      exact heq
    · refine ⟨ddaStep sx sy dx dy s,
        m.get (ddaStep sx sy dx dy s).mapX (ddaStep sx sy dx dy s).mapY,
        ?_, hmat⟩
      simp only [dda]
      rw [if_pos hmat]

/-- Step-count decomposition of a completed DDA run: the final cell is the
starting cell plus a nonnegative number of steps per axis, the axis
recorded in `side` has made at least one step, and `side` is 0 or 1. -/
theorem dda_decomp (m : Map) (sx sy : ℤ) (dx dy : ℚ) :
    ∀ (n : ℕ) (s s1 : DDAState) (mat : Material),
      dda m sx sy dx dy n s = some (s1, mat) →
      ∃ kx ky : ℕ, s1.mapX = s.mapX + kx * sx ∧ s1.mapY = s.mapY + ky * sy ∧
        (s1.side = 0 → 1 ≤ kx) ∧ (s1.side = 1 → 1 ≤ ky) ∧
        (s1.side = 0 ∨ s1.side = 1) := by
  intro n
  induction n with
  | zero => intro s s1 mat h; simp [dda] at h
  | succ n ih =>
    intro s s1 mat h
    simp only [dda] at h
    split at h
    · rw [Option.some_inj, Prod.mk.injEq] at h
      obtain ⟨h1, h2⟩ := h
      subst h1
      subst h2
      rw [ddaStep_mapX, ddaStep_mapY, ddaStep_side]
      by_cases hlt : s.sideDistX < s.sideDistY
      · rw [if_pos hlt, if_pos hlt, if_pos hlt]
        exact ⟨1, 0, by push_cast; ring, by push_cast; ring,
          fun _ => le_refl 1, fun hc => absurd hc (by simp), Or.inl rfl⟩
      · rw [if_neg hlt, if_neg hlt, if_neg hlt]
        exact ⟨0, 1, by push_cast; ring, by push_cast; ring,
          fun hc => absurd hc (by simp), fun _ => le_refl 1, Or.inr rfl⟩
    · obtain ⟨kx, ky, hx, hy, hsdx, hsdy, hside⟩ :=
        ih (ddaStep sx sy dx dy s) s1 mat h
      rw [ddaStep_mapX] at hx
      rw [ddaStep_mapY] at hy
      by_cases hlt : s.sideDistX < s.sideDistY
      · rw [if_pos hlt] at hx hy
        exact ⟨kx + 1, ky, by push_cast at hx ⊢; linarith, hy,
          fun _ => by omega, hsdy, hside⟩
      · rw [if_neg hlt] at hx hy
        exact ⟨kx, ky + 1, hx, by push_cast at hy ⊢; linarith,
          hsdx, fun _ => by omega, hside⟩

theorem ddaStep_x (sx sy : ℤ) (dx dy : ℚ) (s : DDAState)
    (h : s.sideDistX < s.sideDistY) :
    ddaStep sx sy dx dy s =
      ⟨s.mapX + sx, s.mapY, s.sideDistX + dx, s.sideDistY, 0⟩ := by
  unfold ddaStep
  rw [if_pos h]

theorem ddaStep_y (sx sy : ℤ) (dx dy : ℚ) (s : DDAState)
    (h : ¬s.sideDistX < s.sideDistY) :
    ddaStep sx sy dx dy s =
      ⟨s.mapX, s.mapY + sy, s.sideDistX, s.sideDistY + dy, 1⟩ := by
  unfold ddaStep
  rw [if_neg h]

theorem dda_hit (m : Map) (sx sy : ℤ) (dx dy : ℚ) (n : ℕ) (s s1 : DDAState)
    (hstep : ddaStep sx sy dx dy s = s1)
    (hmat : m.get s1.mapX s1.mapY ≠ Material.Empty) :
    dda m sx sy dx dy (n + 1) s = some (s1, m.get s1.mapX s1.mapY) := by
  subst hstep
  simp only [dda]
  rw [if_pos hmat]

theorem dda_miss (m : Map) (sx sy : ℤ) (dx dy : ℚ) (n : ℕ) (s s1 : DDAState)
    (hstep : ddaStep sx sy dx dy s = s1)
    (hmat : m.get s1.mapX s1.mapY = Material.Empty) :
    dda m sx sy dx dy (n + 1) s = dda m sx sy dx dy n s1 := by
  subst hstep
  simp only [dda]
  rw [if_neg fun hcon => hcon hmat]

/-- The DDA run inside `castColumn` always completes. -/
theorem castColumn_run (p : Player) (m : Map) (x w : ℕ) :
    ∃ s1 mat,
      dda m (stepDir (rayDir p x w).x) (stepDir (rayDir p x w).y)
          (deltaDist (rayDir p x w).x) (deltaDist (rayDir p x w).y)
          (ddaFuel m (stepDir (rayDir p x w).x) (stepDir (rayDir p x w).y)
            (startCell p).1 (startCell p).2)
          ⟨(startCell p).1, (startCell p).2,
            sideDistInit (rayDir p x w).x p.position.x (startCell p).1
              (deltaDist (rayDir p x w).x),
            sideDistInit (rayDir p x w).y p.position.y (startCell p).2
              (deltaDist (rayDir p x w).y), 0⟩ = some (s1, mat) ∧
        mat ≠ Material.Empty :=
  dda_some m _ _ _ _ (stepDir_cases _) (stepDir_cases _) _ _ (le_of_eq rfl)

/-- Unfolding of `castColumn` once its DDA run is known. -/
theorem castColumn_eq_of_run (p : Player) (m : Map) (x w : ℕ)
    (s1 : DDAState) (mat : Material)
    (heq : dda m (stepDir (rayDir p x w).x) (stepDir (rayDir p x w).y)
        (deltaDist (rayDir p x w).x) (deltaDist (rayDir p x w).y)
        (ddaFuel m (stepDir (rayDir p x w).x) (stepDir (rayDir p x w).y)
          (startCell p).1 (startCell p).2)
        ⟨(startCell p).1, (startCell p).2,
          sideDistInit (rayDir p x w).x p.position.x (startCell p).1
            (deltaDist (rayDir p x w).x),
          sideDistInit (rayDir p x w).y p.position.y (startCell p).2
            (deltaDist (rayDir p x w).y), 0⟩ = some (s1, mat)) :
    castColumn p m x w = some
      ⟨if s1.side = 0 then
          ((s1.mapX : ℚ) - p.position.x +
              (1 - (stepDir (rayDir p x w).x : ℚ)) / 2) / (rayDir p x w).x
        else
          ((s1.mapY : ℚ) - p.position.y +
              (1 - (stepDir (rayDir p x w).y : ℚ)) / 2) / (rayDir p x w).y,
        mat, s1.side, s1.mapX, s1.mapY⟩ := by
  unfold castColumn
  dsimp only
  rw [heq]
  rfl

/-- Positivity of the perpendicular-distance formula along one axis, given
at least one step on that axis, a nonzero ray component, and a camera
coordinate strictly inside a cell of the nonnegative range. -/
theorem perp_axis_pos (rd pos : ℚ) (k : ℕ) (hrd : rd ≠ 0) (hk : 1 ≤ k)
    (hf : (⌊pos⌋ : ℚ) ≠ pos) :
    0 < (((⌊pos⌋ + k * stepDir rd : ℤ) : ℚ) - pos +
        (1 - (stepDir rd : ℚ)) / 2) / rd := by
  have hfl : (⌊pos⌋ : ℚ) < pos := lt_of_le_of_ne (Int.floor_le pos) hf
  have hfu : pos < (⌊pos⌋ : ℚ) + 1 := Int.lt_floor_add_one pos
  have hk1 : (1 : ℚ) ≤ (k : ℚ) := by exact_mod_cast hk
  unfold stepDir
  by_cases hneg : rd < 0
  · rw [if_pos hneg]
    apply div_pos_of_neg_of_neg _ hneg
    push_cast
    linarith
  · rw [if_neg hneg]
    have hpos : 0 < rd := lt_of_le_of_ne (not_lt.mp hneg) (Ne.symm hrd)
    apply div_pos _ hpos
    push_cast
    linarith

/-! ## Claim theorems: frame surface -/

/-- C6: a `set(x, y, ch, fg, bg)` call with `x ≥ width` or `y ≥ height` is
a no-op: the frame buffer (glyphs, foreground and background colors,
dimensions) is returned exactly unchanged, and nothing is indexed out of
range. -/
theorem c6_set_out_of_range_noop (fb : FrameBuffer) (x y : ℕ) (ch : Char)
    (fg bg : Color) (h : fb.width ≤ x ∨ fb.height ≤ y) :
    fb.set x y ch fg bg = fb := by
  unfold FrameBuffer.set
  rw [if_neg]
  rintro ⟨h1, h2⟩
  omega

/-- Witness for C6 at a concrete out-of-range call on a 3×2 buffer. -/
theorem c6_witness :
    ((FrameBuffer.new 3 2).width ≤ 5 ∨ (FrameBuffer.new 3 2).height ≤ 0) ∧
      (FrameBuffer.new 3 2).set 5 0 'a' Color.Red Color.Blue =
        FrameBuffer.new 3 2 :=
  ⟨Or.inl (by decide),
    c6_set_out_of_range_noop (FrameBuffer.new 3 2) 5 0 'a' Color.Red Color.Blue
      (Or.inl (by decide))⟩

/-- C7: after `new(width, height)` and after every sequence of `resize`,
`clear` and `set` operations, each of the glyph, foreground-color and
background-color buffers has length exactly `width * height` for the
current dimension fields. -/
theorem c7_size_invariant (w h : ℕ) (ops : List FBOp) :
    (ops.foldl applyOp (FrameBuffer.new w h)).sizeInv :=
  sizeInv_foldl applyOp sizeInv_applyOp ops (FrameBuffer.new w h)
    (sizeInv_new w h)

/-! ## Evaluation helpers for concrete camera states -/

theorem ratTrunc_eq (q : ℚ) : ratTrunc q = if q < 0 then ⌈q⌉ else ⌊q⌋ := by
  unfold ratTrunc
  by_cases h : q < 0
  · rw [if_pos h]
    have hn : q.num < 0 := Rat.num_neg.mpr h
    have hceil : ⌈q⌉ = -⌊-q⌋ := by rw [Int.floor_neg, neg_neg]
    rw [hceil, Rat.floor_def, Rat.neg_num, Rat.neg_den]
    rw [show q.num = -(-q.num) by ring, Int.neg_tdiv, neg_neg,
      Int.tdiv_eq_ediv (by omega) (Int.ofNat_nonneg q.den)]
  · rw [if_neg h]
    have hn : 0 ≤ q.num := Rat.num_nonneg.mpr (not_lt.mp h)
    rw [Rat.floor_def]
    exact Int.tdiv_eq_ediv hn (Int.ofNat_nonneg q.den)

theorem ratTrunc_floor (q : ℚ) (h0 : 0 ≤ q) : ratTrunc q = ⌊q⌋ := by
  rw [ratTrunc_eq, if_neg (not_lt.mpr h0)]

theorem ratToI32_eq_floor (q : ℚ) (h0 : 0 ≤ q) (h1 : q < 2 ^ 31) :
    ratToI32 q = ⌊q⌋ := by
  unfold ratToI32
  rw [ratTrunc_floor q h0]
  have hf0 : (0 : ℤ) ≤ ⌊q⌋ := Int.floor_nonneg.mpr h0
  have hfu : ⌊q⌋ < 2 ^ 31 := by
    have h2 : (⌊q⌋ : ℚ) < 2 ^ 31 := lt_of_le_of_lt (Int.floor_le q) h1
    exact_mod_cast h2
  rw [min_eq_right (by omega), max_eq_right (by omega)]

theorem ratToI32_of_trunc (q : ℚ) (z : ℤ) (h : ratTrunc q = z)
    (h1 : -(2 ^ 31) ≤ z) (h2 : z ≤ 2 ^ 31 - 1) : ratToI32 q = z := by
  unfold ratToI32
  rw [h, min_eq_right h2, max_eq_right h1]

theorem ratTrunc_half : ratTrunc (1 / 2) = 0 := by
  rw [ratTrunc_eq]
  norm_num

theorem ratToI32_half : ratToI32 (1 / 2) = 0 :=
  ratToI32_of_trunc _ 0 ratTrunc_half (by norm_num) (by norm_num)

theorem startCell_axisPlayer : startCell axisPlayer = (0, 0) := by
  unfold startCell axisPlayer
  dsimp only
  rw [ratToI32_half]

/-! ## Claim theorems: DDA termination and hit guarantees (C1) -/

/-- C1 fails on the code as stated: at camera position `(-1/2, 1/2)` with
ray `(-1, 0)` (a camera state with a nonzero ray component, screen width
1), the starting cell truncates to `(0, 0)`, the first DDA step leaves the
grid at cell `(-1, 0)`, and the perpendicular wall distance evaluates to
`-1/2`, which is not positive. -/
theorem c1_counterexample :
    (0 : ℕ) < 1 ∧ rayDir negPlayer 0 1 ≠ ⟨0, 0⟩ ∧
      (castColumn negPlayer openMap 0 1).map RayHit.perpWallDist =
        some (-(1 / 2)) := by
  have hray : rayDir negPlayer 0 1 = ⟨-1, 0⟩ := by
    unfold rayDir negPlayer Vector2D.add Vector2D.smul
    dsimp only
    rw [Vector2D.mk.injEq]
    norm_num
  have hsc : startCell negPlayer = (0, 0) := by
    unfold startCell negPlayer
    dsimp only
    rw [ratToI32_half, ratToI32_of_trunc (-(1 / 2)) 0 ?_ (by norm_num)
      (by norm_num)]
    rw [ratTrunc_eq]
    rw [if_pos (by norm_num)]
    rw [Int.ceil_eq_iff]
    norm_num
  have hne0 : rayDir negPlayer 0 1 ≠ ⟨0, 0⟩ := by
    rw [hray]
    intro hcon
    rw [Vector2D.mk.injEq] at hcon
    norm_num at hcon
  refine ⟨Nat.one_pos, hne0, ?_⟩
  have hdx : deltaDist (-1 : ℚ) = 1 := by
    unfold deltaDist
    norm_num
  have hdy : deltaDist (0 : ℚ) = f64MAX := by
    unfold deltaDist
    norm_num
  have hsx : stepDir (-1 : ℚ) = -1 := by
    unfold stepDir
    norm_num
  have hsy : stepDir (0 : ℚ) = 1 := by
    unfold stepDir
    norm_num
  have hfuel : ddaFuel openMap (-1) 1 0 0 = 5 := by
    unfold ddaFuel exitSteps openMap
    decide
  have hsd1 : sideDistInit (-1) (-(1 / 2)) 0 1 = -(1 / 2) := by
    unfold sideDistInit
    rw [if_pos (by norm_num)]
    norm_num
  have hsd2 : sideDistInit 0 (1 / 2) 0 f64MAX = f64MAX / 2 := by
    unfold sideDistInit
    rw [if_neg (by norm_num)]
    push_cast
    ring
  have hstep : ddaStep (-1) 1 1 f64MAX ⟨0, 0, -(1 / 2), f64MAX / 2, 0⟩ =
      ⟨-1, 0, 1 / 2, f64MAX / 2, 0⟩ := by
    rw [ddaStep_x]
    · rw [DDAState.mk.injEq]
      norm_num
    · show -(1 / 2) < f64MAX / 2
      unfold f64MAX
      norm_num
  have hoob : openMap.get (-1) 0 = Material.OutOfBounds := by decide
  have hrun : dda openMap (-1) 1 1 f64MAX 5 ⟨0, 0, -(1 / 2), f64MAX / 2, 0⟩ =
      some (⟨-1, 0, 1 / 2, f64MAX / 2, 0⟩, Material.OutOfBounds) := by
    rw [show (5 : ℕ) = 4 + 1 from rfl]
    rw [dda_hit openMap _ _ _ _ 4 _ _ hstep (by rw [hoob]; decide)]
    rw [hoob]
  unfold castColumn
  dsimp only
  rw [hray]
  dsimp only
  rw [hsc]
  dsimp only
  rw [hdx, hdy, hsx, hsy]
  dsimp only [negPlayer]
  rw [hsd1, hsd2, hfuel, hrun]
  simp only [Option.map_some']
  rw [Option.some_inj]
  norm_num

/-- C1 (amended): for every camera state, column and grid, the DDA loop of
`render_frame` terminates and returns a hit whose material is not `Empty`;
if moreover both components of the column's ray direction are nonzero and
each camera position coordinate lies strictly inside a cell of the
nonnegative range `[0, 2^31)` (not exactly on a grid line), the
perpendicular wall distance is also strictly positive (and finite — a
rational).  The original unconditional positivity fails for negative
camera positions (see the counterexample) and for grid-line positions. -/
theorem c1_castColumn_hit (p : Player) (m : Map) (x w : ℕ)
    (_hw : 0 < w) (_hx : x < w)
    (hrx : (rayDir p x w).x ≠ 0) (hry : (rayDir p x w).y ≠ 0)
    (hpx0 : 0 ≤ p.position.x) (hpx1 : p.position.x < 2 ^ 31)
    (hpxf : (⌊p.position.x⌋ : ℚ) ≠ p.position.x)
    (hpy0 : 0 ≤ p.position.y) (hpy1 : p.position.y < 2 ^ 31)
    (hpyf : (⌊p.position.y⌋ : ℚ) ≠ p.position.y) :
    ∃ hit, castColumn p m x w = some hit ∧ hit.material ≠ Material.Empty ∧
      0 < hit.perpWallDist := by
  obtain ⟨s1, mat, heq, hne⟩ := castColumn_run p m x w
  refine ⟨_, castColumn_eq_of_run p m x w s1 mat heq, hne, ?_⟩
  obtain ⟨kx, ky, hkx, hky, hsx1, hsy1, hside⟩ :=
    dda_decomp m _ _ _ _ _ _ _ _ heq
  dsimp only at hkx hky
  have hcx : (startCell p).1 = ⌊p.position.x⌋ := ratToI32_eq_floor _ hpx0 hpx1
  have hcy : (startCell p).2 = ⌊p.position.y⌋ := ratToI32_eq_floor _ hpy0 hpy1
  rcases hside with h0 | h1
  · dsimp only
    rw [if_pos h0, hkx, hcx]
    exact perp_axis_pos _ _ kx hrx (hsx1 h0) hpxf
  · dsimp only
    rw [if_neg (by omega), hky, hcy]
    exact perp_axis_pos _ _ ky hry (hsy1 h1) hpyf

/-- Witness for C1 (amended): camera at `(3/2, 3/2)` with ray `(1, 1)` on
the all-empty 2×2 grid hits the out-of-bounds border at positive distance. -/
theorem c1_witness :
    ((0 : ℕ) < 1 ∧ (0 : ℕ) < 1 ∧
        (rayDir diagPlayer 0 1).x ≠ 0 ∧ (rayDir diagPlayer 0 1).y ≠ 0 ∧
        0 ≤ diagPlayer.position.x ∧ diagPlayer.position.x < 2 ^ 31 ∧
        (⌊diagPlayer.position.x⌋ : ℚ) ≠ diagPlayer.position.x ∧
        0 ≤ diagPlayer.position.y ∧ diagPlayer.position.y < 2 ^ 31 ∧
        (⌊diagPlayer.position.y⌋ : ℚ) ≠ diagPlayer.position.y) ∧
      ∃ hit, castColumn diagPlayer openMap 0 1 = some hit ∧
        hit.material ≠ Material.Empty ∧ 0 < hit.perpWallDist :=
  ⟨⟨Nat.one_pos, Nat.one_pos,
      by norm_num [rayDir, diagPlayer, Vector2D.add, Vector2D.smul],
      by norm_num [rayDir, diagPlayer, Vector2D.add, Vector2D.smul],
      by norm_num [diagPlayer], by norm_num [diagPlayer],
      by norm_num [diagPlayer], by norm_num [diagPlayer],
      by norm_num [diagPlayer], by norm_num [diagPlayer]⟩,
    c1_castColumn_hit diagPlayer openMap 0 1 Nat.one_pos Nat.one_pos
      (by norm_num [rayDir, diagPlayer, Vector2D.add, Vector2D.smul])
      (by norm_num [rayDir, diagPlayer, Vector2D.add, Vector2D.smul])
      (by norm_num [diagPlayer]) (by norm_num [diagPlayer])
      (by norm_num [diagPlayer]) (by norm_num [diagPlayer])
      (by norm_num [diagPlayer]) (by norm_num [diagPlayer])⟩

/-! ## The axis-aligned corridor walk (shared by C3, C5 and C10) -/

theorem axis_rayDir : rayDir axisPlayer 0 1 = ⟨0, 1⟩ := by
  unfold rayDir axisPlayer Vector2D.add Vector2D.smul
  dsimp only
  rw [Vector2D.mk.injEq]
  norm_num

theorem deltaDist_zero : deltaDist 0 = f64MAX := by
  unfold deltaDist
  norm_num

theorem deltaDist_one : deltaDist (1 : ℚ) = 1 := by
  unfold deltaDist
  norm_num

theorem stepDir_zero : stepDir (0 : ℚ) = 1 := by
  unfold stepDir
  norm_num

theorem stepDir_one : stepDir (1 : ℚ) = 1 := by
  unfold stepDir
  norm_num

theorem sideDistInit_half_MAX : sideDistInit 0 (1 / 2) 0 f64MAX = f64MAX / 2 := by
  unfold sideDistInit
  rw [if_neg (by norm_num)]
  push_cast
  ring

theorem sideDistInit_half_one : sideDistInit 1 (1 / 2) 0 1 = 1 / 2 := by
  unfold sideDistInit
  rw [if_neg (by norm_num)]
  norm_num

theorem corridor_fuel (d : ℕ) : ddaFuel (corridor d) 1 1 0 0 = d + 4 := by
  unfold ddaFuel exitSteps corridor
  dsimp only
  rw [if_pos rfl, if_pos rfl]
  omega

theorem corridor_run (d : ℕ) (hb : (d : ℚ) ≤ 2 ^ 1000) :
    ∀ n j sd : ℕ, j < d → d - j ≤ n →
      dda (corridor d) 1 1 f64MAX 1 n
          ⟨0, (j : ℤ), f64MAX / 2, (j : ℚ) + 1 / 2, sd⟩ =
        some (⟨0, (d : ℤ), f64MAX / 2, (d : ℚ) + 1 / 2, 1⟩,
          Material.SolidWall) := by
  intro n
  induction n with
  | zero => intro j sd hj hn; omega
  | succ n ih =>
    intro j sd hj hn
    have hjq : (j : ℚ) < (d : ℚ) := by exact_mod_cast hj
    have hconst : (2 : ℚ) ^ 1000 + 1 / 2 ≤ (2 ^ 53 - 1) * 2 ^ 971 / 2 := by
      norm_num
    have hcmp : ¬((f64MAX / 2 : ℚ) < (j : ℚ) + 1 / 2) := by
      push_neg
      unfold f64MAX
      linarith
    have hstep : ddaStep 1 1 f64MAX 1
        ⟨0, (j : ℤ), f64MAX / 2, (j : ℚ) + 1 / 2, sd⟩ =
        ⟨0, (j : ℤ) + 1, f64MAX / 2, (j : ℚ) + 1 / 2 + 1, 1⟩ := by
      rw [ddaStep_y]
      exact hcmp
    by_cases hj1 : j + 1 = d
    · subst hj1
      have hget : (corridor (j + 1)).get 0 ((j : ℤ) + 1) =
          Material.SolidWall := by
        unfold Map.get corridor
        dsimp only
        rw [if_pos ⟨le_refl 0, by norm_num, by omega, by push_cast; omega⟩]
        rw [show ((j : ℤ) + 1).toNat = j + 1 by omega, if_pos rfl]
      rw [dda_hit _ _ _ _ _ n _ _ hstep (by rw [hget]; decide)]
      rw [hget, Option.some_inj, Prod.mk.injEq, DDAState.mk.injEq]
      refine ⟨⟨rfl, by push_cast; ring, rfl, by push_cast; ring, rfl⟩, rfl⟩
    · have hget : (corridor d).get 0 ((j : ℤ) + 1) = Material.Empty := by
        unfold Map.get corridor
        dsimp only
        rw [if_pos ⟨le_refl 0, by norm_num, by omega, by push_cast; omega⟩]
        rw [show ((j : ℤ) + 1).toNat = j + 1 by omega, if_neg hj1]
      rw [dda_miss _ _ _ _ _ n _ _ hstep hget]
      rw [show ((j : ℤ) + 1) = ((j + 1 : ℕ) : ℤ) by push_cast; ring]
      rw [show ((j : ℚ) + 1 / 2 + 1) = ((j + 1 : ℕ) : ℚ) + 1 / 2 by
        push_cast; ring]
      exact ih (j + 1) 1 (by omega) (by omega)

/-- The full per-column result on the corridor scene: camera centered in
cell `(0, 0)`, ray exactly `(0, 1)`, wall cell `d` cells ahead — the hit is
the wall with perpendicular distance `d - 1/2` (the exact distance from the
camera to the wall's near face). -/
theorem corridor_castColumn (d : ℕ) (hd : 1 ≤ d) (hb : (d : ℚ) ≤ 2 ^ 1000) :
    castColumn axisPlayer (corridor d) 0 1 =
      some ⟨(d : ℚ) - 1 / 2, Material.SolidWall, 1, 0, (d : ℤ)⟩ := by
  unfold castColumn
  dsimp only
  rw [axis_rayDir]
  dsimp only
  rw [startCell_axisPlayer]
  dsimp only
  rw [deltaDist_zero, deltaDist_one, stepDir_zero, stepDir_one]
  dsimp only [axisPlayer]
  rw [sideDistInit_half_MAX, sideDistInit_half_one, corridor_fuel]
  have hrun := corridor_run d hb (d + 4) 0 0 (by omega) (by omega)
  norm_num at hrun
  rw [hrun]
  simp only [Option.map_some']
  rw [Option.some_inj, RayHit.mk.injEq]
  norm_num

/-! ## Claim theorems: axis-aligned exact distance (C3) -/

/-- C3 fails on the code as stated: for the camera centered in cell
`(0, 0)` with ray exactly `(0, 1)` and the wall cell 3 cells ahead along
y, the computed perpendicular distance is `5/2`, not `3.0` — the wall's
near face lies `d - 1/2` from a cell-centered camera, so the distance is
never the integer `d`. -/
theorem c3_counterexample :
    (castColumn axisPlayer (corridor 3) 0 1).map RayHit.perpWallDist ≠
      some 3 := by
  rw [corridor_castColumn 3 (by norm_num) (by norm_num)]
  simp only [Option.map_some']
  intro hcon
  rw [Option.some_inj] at hcon
  norm_num at hcon

/-- C3 (amended): for a cell-centered camera with ray direction exactly
`(0, 1)` and the wall cell `d ≥ 1` cells away along y (empty cells
between), the perpendicular wall distance is exactly `d - 1/2` — the exact
distance from the camera to the wall's near face, with no fisheye
distortion (in particular `5/2` exactly for a wall 3 cells away).  The
value `d` itself is unreachable because the wall's near face sits on a
grid line, half a cell from the cell-centered camera's own cell wall. -/
theorem c3_axis_distance (d : ℕ) (hd : 1 ≤ d) (hb : (d : ℚ) ≤ 2 ^ 1000) :
    (castColumn axisPlayer (corridor d) 0 1).map RayHit.perpWallDist =
      some ((d : ℚ) - 1 / 2) := by
  rw [corridor_castColumn d hd hb]
  rfl

/-- Witness for C3 (amended) at `d = 3`: the distance is `5/2` exactly. -/
theorem c3_witness :
    (1 ≤ 3 ∧ ((3 : ℕ) : ℚ) ≤ 2 ^ 1000) ∧
      (castColumn axisPlayer (corridor 3) 0 1).map RayHit.perpWallDist =
        some (((3 : ℕ) : ℚ) - 1 / 2) :=
  ⟨⟨by norm_num, by norm_num⟩,
    c3_axis_distance 3 (by norm_num) (by norm_num)⟩

/-! ## Claim theorems: axis-aligned rays and the sentinel (C5) -/

/-- As long as the accumulated y side distance stays below the x side
distance, only the y axis ever wins the DDA comparison, so the x
coordinate never changes. -/
theorem dda_x_frozen (m : Map) (sx sy : ℤ) (dx dy : ℚ) (hdy : 0 < dy) :
    ∀ (n : ℕ) (s s1 : DDAState) (mat : Material),
      s.sideDistY + n * dy ≤ s.sideDistX →
      dda m sx sy dx dy n s = some (s1, mat) → s1.mapX = s.mapX := by
  intro n
  induction n with
  | zero => intro s s1 mat _ h; simp [dda] at h
  | succ n ih =>
    intro s s1 mat hbound h
    have hn1 : dy ≤ ((n : ℚ) + 1) * dy := by
      nlinarith [Nat.cast_nonneg (α := ℚ) n]
    have hle : s.sideDistY ≤ s.sideDistX := by
      push_cast at hbound
      linarith
    have hstep := ddaStep_y sx sy dx dy s (not_lt.mpr hle)
    simp only [dda] at h
    split at h
    · rw [Option.some_inj, Prod.mk.injEq] at h
      rw [← h.1, hstep]
    · have hb1 : (ddaStep sx sy dx dy s).sideDistY + n * dy ≤
          (ddaStep sx sy dx dy s).sideDistX := by
        rw [hstep]
        push_cast at hbound ⊢
        linarith
      rw [ih (ddaStep sx sy dx dy s) s1 mat hb1 h, hstep]

/-- As long as the accumulated x side distance stays strictly below the y
side distance with a positive `dx` margin per remaining step, only the x
axis ever wins the DDA comparison (ties go to the y branch, hence the
strictness), so the y coordinate never changes. -/
theorem dda_y_frozen (m : Map) (sx sy : ℤ) (dx dy : ℚ) (hdx : 0 < dx) :
    ∀ (n : ℕ) (s s1 : DDAState) (mat : Material),
      s.sideDistX + n * dx ≤ s.sideDistY →
      dda m sx sy dx dy n s = some (s1, mat) → s1.mapY = s.mapY := by
  intro n
  induction n with
  | zero => intro s s1 mat _ h; simp [dda] at h
  | succ n ih =>
    intro s s1 mat hbound h
    have hn1 : dx ≤ ((n : ℚ) + 1) * dx := by
      nlinarith [Nat.cast_nonneg (α := ℚ) n]
    have hlt : s.sideDistX < s.sideDistY := by
      push_cast at hbound
      linarith
    have hstep := ddaStep_x sx sy dx dy s hlt
    simp only [dda] at h
    split at h
    · rw [Option.some_inj, Prod.mk.injEq] at h
      rw [← h.1, hstep]
    · have hb1 : (ddaStep sx sy dx dy s).sideDistX + n * dx ≤
          (ddaStep sx sy dx dy s).sideDistY := by
        rw [hstep]
        push_cast at hbound ⊢
        linarith
      rw [ih (ddaStep sx sy dx dy s) s1 mat hb1 h, hstep]

/-- C5 fails on the code in its "zero axis never steps" part: with ray
`(0, 1/f64MAX)` from a cell-centered camera, the y delta distance is the
sentinel-sized `f64MAX`, so after one y step the accumulated y side
distance exceeds the sentinel-scaled x side distance and the x axis wins a
DDA comparison — the x coordinate moves from the starting 0 to 1. -/
theorem c5_counterexample :
    (rayDir tinyRayPlayer 0 1).x = 0 ∧ (rayDir tinyRayPlayer 0 1).y ≠ 0 ∧
      (startCell tinyRayPlayer).1 = 0 ∧
      (castColumn tinyRayPlayer stairMap 0 1).map RayHit.mapX = some 1 := by
  have hMAX : (0 : ℚ) < f64MAX := by
    unfold f64MAX
    norm_num
  have hray : rayDir tinyRayPlayer 0 1 = ⟨0, 1 / f64MAX⟩ := by
    unfold rayDir tinyRayPlayer Vector2D.add Vector2D.smul
    dsimp only
    rw [Vector2D.mk.injEq]
    norm_num
  have hsc : startCell tinyRayPlayer = (0, 0) := by
    unfold startCell tinyRayPlayer
    dsimp only
    rw [ratToI32_half]
  have hdy : deltaDist (1 / f64MAX) = f64MAX := by
    unfold deltaDist
    rw [if_neg (one_div_ne_zero (ne_of_gt hMAX)), one_div_one_div,
      abs_of_pos hMAX]
  have hsy : stepDir (1 / f64MAX) = 1 := by
    unfold stepDir
    rw [if_neg (not_lt.mpr (le_of_lt (by positivity)))]
  have hsd2 : sideDistInit (1 / f64MAX) (1 / 2) 0 f64MAX = f64MAX / 2 := by
    unfold sideDistInit
    rw [if_neg (not_lt.mpr (le_of_lt (by positivity)))]
    push_cast
    ring
  have hfuel : ddaFuel stairMap 1 1 0 0 = 6 := by
    unfold ddaFuel exitSteps stairMap
    decide
  have hstep1 : ddaStep 1 1 f64MAX f64MAX ⟨0, 0, f64MAX / 2, f64MAX / 2, 0⟩ =
      ⟨0, 1, f64MAX / 2, f64MAX / 2 + f64MAX, 1⟩ := by
    have h := ddaStep_y 1 1 f64MAX f64MAX ⟨0, 0, f64MAX / 2, f64MAX / 2, 0⟩
      (lt_irrefl _)
    rw [h, DDAState.mk.injEq]
    norm_num
  have hget1 : stairMap.get 0 1 = Material.Empty := by decide
  have hstep2 : ddaStep 1 1 f64MAX f64MAX
      ⟨0, 1, f64MAX / 2, f64MAX / 2 + f64MAX, 1⟩ =
      ⟨1, 1, f64MAX / 2 + f64MAX, f64MAX / 2 + f64MAX, 0⟩ := by
    have h := ddaStep_x 1 1 f64MAX f64MAX
      ⟨0, 1, f64MAX / 2, f64MAX / 2 + f64MAX, 1⟩
      (show (f64MAX / 2 : ℚ) < f64MAX / 2 + f64MAX by linarith)
    rw [h, DDAState.mk.injEq]
    norm_num
  have hget2 : stairMap.get 1 1 = Material.SolidWall := by decide
  have hrun : dda stairMap 1 1 f64MAX f64MAX 6
      ⟨0, 0, f64MAX / 2, f64MAX / 2, 0⟩ =
      some (⟨1, 1, f64MAX / 2 + f64MAX, f64MAX / 2 + f64MAX, 0⟩,
        Material.SolidWall) := by
    rw [show (6 : ℕ) = 5 + 1 from rfl,
      dda_miss _ _ _ _ _ 5 _ _ hstep1 hget1]
    rw [show (5 : ℕ) = 4 + 1 from rfl,
      dda_hit _ _ _ _ _ 4 _ _ hstep2 (by rw [hget2]; decide)]
    rw [hget2]
  refine ⟨by rw [hray], ?_, by rw [hsc], ?_⟩
  · rw [hray]
    exact one_div_ne_zero (ne_of_gt hMAX)
  unfold castColumn
  dsimp only
  rw [hray]
  dsimp only
  rw [hsc]
  dsimp only
  rw [deltaDist_zero, hdy, stepDir_zero, hsy]
  dsimp only [tinyRayPlayer]
  rw [sideDistInit_half_MAX, hsd2, hfuel, hrun]
  simp only [Option.map_some']

/-- C5 (amended): for a ray with exactly one zero component — either
orientation — the delta distance of the zero axis is the finite sentinel
`f64::MAX` instead of a division by zero, and the zero axis's grid
coordinate never changes throughout the DDA loop provided the nonzero
axis's side distance accumulated over the whole run stays within the
sentinel-scaled initial side distance of the zero axis (which holds in
every ordinary scene; the counterexample shows it can fail when the
nonzero ray component is so small that its delta distance is itself
sentinel-sized).  The first conjunct settles rays with a zero x component,
the second rays with a zero y component, such as the program's default
facing direction `(-1, 0)`. -/
theorem c5_zero_axis_frozen (p : Player) (m : Map) (x w : ℕ) :
    ((rayDir p x w).x = 0 → (rayDir p x w).y ≠ 0 →
      sideDistInit (rayDir p x w).y p.position.y (startCell p).2
            (deltaDist (rayDir p x w).y) +
          (ddaFuel m (stepDir (rayDir p x w).x) (stepDir (rayDir p x w).y)
              (startCell p).1 (startCell p).2 : ℚ) *
            deltaDist (rayDir p x w).y ≤
          sideDistInit (rayDir p x w).x p.position.x (startCell p).1
            (deltaDist (rayDir p x w).x) →
      deltaDist (rayDir p x w).x = f64MAX ∧
        ∃ hit, castColumn p m x w = some hit ∧
          hit.material ≠ Material.Empty ∧ hit.mapX = (startCell p).1) ∧
    ((rayDir p x w).y = 0 → (rayDir p x w).x ≠ 0 →
      sideDistInit (rayDir p x w).x p.position.x (startCell p).1
            (deltaDist (rayDir p x w).x) +
          (ddaFuel m (stepDir (rayDir p x w).x) (stepDir (rayDir p x w).y)
              (startCell p).1 (startCell p).2 : ℚ) *
            deltaDist (rayDir p x w).x ≤
          sideDistInit (rayDir p x w).y p.position.y (startCell p).2
            (deltaDist (rayDir p x w).y) →
      deltaDist (rayDir p x w).y = f64MAX ∧
        ∃ hit, castColumn p m x w = some hit ∧
          hit.material ≠ Material.Empty ∧ hit.mapY = (startCell p).2) := by
  constructor
  · intro h0 h1 hb
    refine ⟨by unfold deltaDist; rw [if_pos h0], ?_⟩
    obtain ⟨s1, mat, heq, hne⟩ := castColumn_run p m x w
    refine ⟨_, castColumn_eq_of_run p m x w s1 mat heq, hne, ?_⟩
    have hdy : 0 < deltaDist (rayDir p x w).y := by
      unfold deltaDist
      rw [if_neg h1]
      exact abs_pos.mpr (one_div_ne_zero h1)
    refine dda_x_frozen m _ _ _ _ hdy _ _ _ _ ?_ heq
    exact hb
  · intro h0 h1 hb
    refine ⟨by unfold deltaDist; rw [if_pos h0], ?_⟩
    obtain ⟨s1, mat, heq, hne⟩ := castColumn_run p m x w
    refine ⟨_, castColumn_eq_of_run p m x w s1 mat heq, hne, ?_⟩
    have hdx : 0 < deltaDist (rayDir p x w).x := by
      unfold deltaDist
      rw [if_neg h1]
      exact abs_pos.mpr (one_div_ne_zero h1)
    refine dda_y_frozen m _ _ _ _ hdx _ _ _ _ ?_ heq
    exact hb

/-- Witness for C5 (amended), one concrete scene per orientation: the
corridor scene with ray `(0, 1)` (sentinel on the x axis, x coordinate
stays 0), and the open scene with the default-facing ray `(-1, 0)`
(sentinel on the y axis, y coordinate stays 0). -/
theorem c5_witness :
    ((rayDir axisPlayer 0 1).x = 0 ∧ (rayDir axisPlayer 0 1).y ≠ 0 ∧
        (sideDistInit (rayDir axisPlayer 0 1).y axisPlayer.position.y
              (startCell axisPlayer).2 (deltaDist (rayDir axisPlayer 0 1).y) +
            (ddaFuel (corridor 3) (stepDir (rayDir axisPlayer 0 1).x)
                (stepDir (rayDir axisPlayer 0 1).y) (startCell axisPlayer).1
                (startCell axisPlayer).2 : ℚ) *
              deltaDist (rayDir axisPlayer 0 1).y ≤
          sideDistInit (rayDir axisPlayer 0 1).x axisPlayer.position.x
            (startCell axisPlayer).1 (deltaDist (rayDir axisPlayer 0 1).x)) ∧
        deltaDist (rayDir axisPlayer 0 1).x = f64MAX ∧
          ∃ hit, castColumn axisPlayer (corridor 3) 0 1 = some hit ∧
            hit.material ≠ Material.Empty ∧
            hit.mapX = (startCell axisPlayer).1) ∧
      ((rayDir westPlayer 0 1).y = 0 ∧ (rayDir westPlayer 0 1).x ≠ 0 ∧
        (sideDistInit (rayDir westPlayer 0 1).x westPlayer.position.x
              (startCell westPlayer).1 (deltaDist (rayDir westPlayer 0 1).x) +
            (ddaFuel openMap (stepDir (rayDir westPlayer 0 1).x)
                (stepDir (rayDir westPlayer 0 1).y) (startCell westPlayer).1
                (startCell westPlayer).2 : ℚ) *
              deltaDist (rayDir westPlayer 0 1).x ≤
          sideDistInit (rayDir westPlayer 0 1).y westPlayer.position.y
            (startCell westPlayer).2 (deltaDist (rayDir westPlayer 0 1).y)) ∧
        deltaDist (rayDir westPlayer 0 1).y = f64MAX ∧
          ∃ hit, castColumn westPlayer openMap 0 1 = some hit ∧
            hit.material ≠ Material.Empty ∧
            hit.mapY = (startCell westPlayer).2) := by
  have hx0 : (rayDir axisPlayer 0 1).x = 0 := by rw [axis_rayDir]
  have hy1 : (rayDir axisPlayer 0 1).y ≠ 0 := by
    rw [axis_rayDir]
    norm_num
  have hbX : sideDistInit (rayDir axisPlayer 0 1).y axisPlayer.position.y
        (startCell axisPlayer).2 (deltaDist (rayDir axisPlayer 0 1).y) +
      (ddaFuel (corridor 3) (stepDir (rayDir axisPlayer 0 1).x)
          (stepDir (rayDir axisPlayer 0 1).y) (startCell axisPlayer).1
          (startCell axisPlayer).2 : ℚ) *
        deltaDist (rayDir axisPlayer 0 1).y ≤
      sideDistInit (rayDir axisPlayer 0 1).x axisPlayer.position.x
        (startCell axisPlayer).1 (deltaDist (rayDir axisPlayer 0 1).x) := by
    rw [axis_rayDir]
    dsimp only
    rw [startCell_axisPlayer]
    dsimp only [axisPlayer]
    rw [deltaDist_zero, deltaDist_one, stepDir_zero, stepDir_one]
    rw [sideDistInit_half_MAX, sideDistInit_half_one, corridor_fuel]
    unfold f64MAX
    norm_num
  have hrayW : rayDir westPlayer 0 1 = ⟨-1, 0⟩ := by
    unfold rayDir westPlayer Vector2D.add Vector2D.smul
    dsimp only
    rw [Vector2D.mk.injEq]
    norm_num
  have hscW : startCell westPlayer = (0, 0) := by
    unfold startCell westPlayer
    dsimp only
    rw [ratToI32_half]
  have hdxW : deltaDist (-1 : ℚ) = 1 := by
    unfold deltaDist
    norm_num
  have hsxW : stepDir (-1 : ℚ) = -1 := by
    unfold stepDir
    norm_num
  have hfuelW : ddaFuel openMap (-1) 1 0 0 = 5 := by
    unfold ddaFuel exitSteps openMap
    decide
  have hsdW : sideDistInit (-1) (1 / 2) 0 1 = 1 / 2 := by
    unfold sideDistInit
    rw [if_pos (by norm_num)]
    norm_num
  have hy0 : (rayDir westPlayer 0 1).y = 0 := by rw [hrayW]
  have hx1 : (rayDir westPlayer 0 1).x ≠ 0 := by
    rw [hrayW]
    norm_num
  have hbY : sideDistInit (rayDir westPlayer 0 1).x westPlayer.position.x
        (startCell westPlayer).1 (deltaDist (rayDir westPlayer 0 1).x) +
      (ddaFuel openMap (stepDir (rayDir westPlayer 0 1).x)
          (stepDir (rayDir westPlayer 0 1).y) (startCell westPlayer).1
          (startCell westPlayer).2 : ℚ) *
        deltaDist (rayDir westPlayer 0 1).x ≤
      sideDistInit (rayDir westPlayer 0 1).y westPlayer.position.y
        (startCell westPlayer).2 (deltaDist (rayDir westPlayer 0 1).y) := by
    rw [hrayW]
    dsimp only
    rw [hscW]
    dsimp only [westPlayer]
    rw [deltaDist_zero, hdxW, stepDir_zero, hsxW]
    rw [sideDistInit_half_MAX, hsdW, hfuelW]
    unfold f64MAX
    norm_num
  exact ⟨⟨hx0, hy1, hbX,
      (c5_zero_axis_frozen axisPlayer (corridor 3) 0 1).1 hx0 hy1 hbX⟩,
    ⟨hy0, hx1, hbY,
      (c5_zero_axis_frozen westPlayer openMap 0 1).2 hy0 hx1 hbY⟩⟩

/-! ## Claim theorems: starting cell (C4) -/

/-- C4 fails on the code: the starting cell is obtained with an `as i32`
cast, which truncates toward zero, so at position `(-1/2, 1/2)` the walk
starts at cell x-coordinate `0`, not `⌊-1/2⌋ = -1`. -/
theorem c4_counterexample :
    startCell ⟨⟨-(1 / 2), 1 / 2⟩, ⟨1, 0⟩, ⟨0, 0⟩⟩ ≠
      (⌊(-(1 / 2) : ℚ)⌋, ⌊((1 / 2) : ℚ)⌋) := by
  have hc : ⌈(-(1 / 2) : ℚ)⌉ = 0 := by
    rw [Int.ceil_eq_iff]
    norm_num
  have hs : startCell ⟨⟨-(1 / 2), 1 / 2⟩, ⟨1, 0⟩, ⟨0, 0⟩⟩ = (0, 0) := by
    unfold startCell ratToI32
    norm_num [ratTrunc_eq, hc]
  rw [hs]
  norm_num [Prod.ext_iff]

/-- C4 (amended): the starting grid cell is the camera position truncated
toward zero per axis (saturated to the `i32` range); it equals the
per-axis floor whenever both position components are nonnegative (and
below `2^31`), but not for negative non-integer positions. -/
theorem c4_start_cell_floor (p : Player)
    (hx0 : 0 ≤ p.position.x) (hx1 : p.position.x < 2 ^ 31)
    (hy0 : 0 ≤ p.position.y) (hy1 : p.position.y < 2 ^ 31) :
    startCell p = (⌊p.position.x⌋, ⌊p.position.y⌋) := by
  unfold startCell
  rw [ratToI32_eq_floor _ hx0 hx1, ratToI32_eq_floor _ hy0 hy1]

/-- Witness for C4 (amended) at position `(3/2, 5/2)`. -/
theorem c4_witness :
    (0 ≤ (3 / 2 : ℚ) ∧ (3 / 2 : ℚ) < 2 ^ 31 ∧ 0 ≤ (5 / 2 : ℚ) ∧
        (5 / 2 : ℚ) < 2 ^ 31) ∧
      startCell ⟨⟨3 / 2, 5 / 2⟩, ⟨1, 0⟩, ⟨0, 1⟩⟩ =
        (⌊(3 / 2 : ℚ)⌋, ⌊(5 / 2 : ℚ)⌋) :=
  ⟨⟨by norm_num, by norm_num, by norm_num, by norm_num⟩,
    c4_start_cell_floor ⟨⟨3 / 2, 5 / 2⟩, ⟨1, 0⟩, ⟨0, 1⟩⟩ (by norm_num)
      (by norm_num) (by norm_num) (by norm_num)⟩

/-! ## Claim theorems: shading monotonicity (C8) -/

theorem ratTrunc_mono {a b : ℚ} (h : a ≤ b) : ratTrunc a ≤ ratTrunc b := by
  rw [ratTrunc_eq, ratTrunc_eq]
  by_cases ha : a < 0 <;> by_cases hb : b < 0 <;>
    simp only [ha, hb, if_true, if_false]
  · exact Int.ceil_le_ceil h
  · refine le_trans ?_ (Int.floor_nonneg.mpr (not_lt.mp hb))
    exact Int.ceil_le.mpr (by exact_mod_cast le_of_lt ha)
  · exact absurd (lt_of_le_of_lt h hb) ha
  · exact Int.floor_le_floor h

theorem ratToU8_mono {a b : ℚ} (h : a ≤ b) : ratToU8 a ≤ ratToU8 b := by
  unfold ratToU8
  exact Int.toNat_le_toNat (min_le_min le_rfl (max_le_max le_rfl
    (ratTrunc_mono h)))

theorem distDim_antitone {d1 d2 : ℚ} (h : d1 ≤ d2) : distDim d2 ≤ distDim d1 := by
  unfold distDim
  exact max_le_max (by linarith) le_rfl

theorem dimFactor_nonneg (side : ℕ) : 0 ≤ dimFactor side := by
  unfold dimFactor
  split <;> norm_num

theorem shadeChannel_antitone (base side : ℕ) {d1 d2 : ℚ} (h : d1 ≤ d2) :
    shadeChannel base side d2 ≤ shadeChannel base side d1 := by
  unfold shadeChannel
  apply ratToU8_mono
  apply mul_le_mul_of_nonneg_left _ (by positivity)
  exact mul_le_mul_of_nonneg_left (distDim_antitone h) (dimFactor_nonneg side)

/-- C8: for a fixed base material color and a fixed hit axis, each shaded
RGB channel is monotone nonincreasing in the perpendicular wall distance. -/
theorem c8_shading_monotone (mat : Material) (side : ℕ) (d1 d2 : ℚ)
    (h : d1 ≤ d2) :
    shadeChannel (baseColor mat).1 side d2 ≤
        shadeChannel (baseColor mat).1 side d1 ∧
      shadeChannel (baseColor mat).2.1 side d2 ≤
        shadeChannel (baseColor mat).2.1 side d1 ∧
      shadeChannel (baseColor mat).2.2 side d2 ≤
        shadeChannel (baseColor mat).2.2 side d1 :=
  ⟨shadeChannel_antitone _ _ h, shadeChannel_antitone _ _ h,
    shadeChannel_antitone _ _ h⟩

/-- Witness for C8 with the red wall material, vertical-line hits, and
distances `1 ≤ 5`. -/
theorem c8_witness :
    (1 : ℚ) ≤ 5 ∧
      (shadeChannel (baseColor Material.SolidWall).1 0 5 ≤
          shadeChannel (baseColor Material.SolidWall).1 0 1 ∧
        shadeChannel (baseColor Material.SolidWall).2.1 0 5 ≤
          shadeChannel (baseColor Material.SolidWall).2.1 0 1 ∧
        shadeChannel (baseColor Material.SolidWall).2.2 0 5 ≤
          shadeChannel (baseColor Material.SolidWall).2.2 0 1) :=
  ⟨by norm_num, c8_shading_monotone Material.SolidWall 0 1 5 (by norm_num)⟩

/-! ## Claim theorems: the vertical stripe writes only `[draw_start, draw_end)` (C10) -/

theorem getCell_set_ne (fb : FrameBuffer) (x1 y1 x y : ℕ) (ch : Char)
    (fg bg : Color) (hx : x < fb.width) (hne : x ≠ x1 ∨ y ≠ y1) :
    (fb.set x1 y1 ch fg bg).getCell x y = fb.getCell x y := by
  unfold FrameBuffer.set
  split
  case isFalse => rfl
  case isTrue hin =>
    have hidx : y1 * fb.width + x1 ≠ y * fb.width + x := by
      intro heq
      have e1 : (y * fb.width + x) % fb.width = x := by
        rw [Nat.add_comm, Nat.add_mul_mod_self_right, Nat.mod_eq_of_lt hx]
      have e2 : (y1 * fb.width + x1) % fb.width = x1 := by
        rw [Nat.add_comm, Nat.add_mul_mod_self_right, Nat.mod_eq_of_lt hin.1]
      have e3 : (y * fb.width + x) / fb.width = y := by
        rw [Nat.add_comm, Nat.add_mul_div_right _ _ (by omega),
          Nat.div_eq_of_lt hx]
        exact Nat.zero_add y
      have e4 : (y1 * fb.width + x1) / fb.width = y1 := by
        rw [Nat.add_comm, Nat.add_mul_div_right _ _ (by omega),
          Nat.div_eq_of_lt hin.1]
        exact Nat.zero_add y1
      rcases hne with h | h
      · exact h (by rw [← e1, ← e2, heq])
      · exact h (by rw [← e3, ← e4, heq])
    unfold FrameBuffer.getCell
    dsimp only
    rw [List.getD_eq_getElem?_getD, List.getD_eq_getElem?_getD,
      List.getD_eq_getElem?_getD, List.getD_eq_getElem?_getD,
      List.getD_eq_getElem?_getD, List.getD_eq_getElem?_getD,
      List.getElem?_set_ne hidx, List.getElem?_set_ne hidx,
      List.getElem?_set_ne hidx]

theorem getCell_foldl_set (x1 : ℕ) (ch : Char) (c1 c2 : Color) :
    ∀ (rows : List ℤ) (fb : FrameBuffer) (x y : ℕ), x < fb.width →
      (x ≠ x1 ∨ ∀ r ∈ rows, y ≠ r.toNat) →
      (rows.foldl (fun f yy => f.set x1 yy.toNat ch c1 c2) fb).getCell x y =
        fb.getCell x y := by
  intro rows
  induction rows with
  | nil => intros; rfl
  | cons r rest ih =>
    intro fb x y hx hor
    rw [List.foldl_cons]
    have hne : x ≠ x1 ∨ y ≠ r.toNat := by
      rcases hor with h | h
      · exact Or.inl h
      · exact Or.inr (h r (List.mem_cons_self r rest))
    have hrest : x ≠ x1 ∨ ∀ s ∈ rest, y ≠ s.toNat := by
      rcases hor with h | h
      · exact Or.inl h
      · exact Or.inr fun s hs => h s (List.mem_cons_of_mem r hs)
    rw [ih (fb.set x1 r.toNat ch c1 c2) x y (by rw [set_width]; exact hx) hrest]
    exact getCell_set_ne fb x1 r.toNat x y ch c1 c2 hx hne

theorem stripeRows_bounds {a b r : ℤ} (hr : r ∈ stripeRows a b) :
    a ≤ r ∧ r < b := by
  unfold stripeRows at hr
  rw [List.mem_map] at hr
  obtain ⟨i, hi, rfl⟩ := hr
  rw [List.mem_range] at hi
  omega

theorem drawStart_nonneg (h : ℕ) (lh : ℤ) : 0 ≤ drawStart h lh := by
  unfold drawStart
  dsimp only
  split <;> omega

theorem getCell_drawColumn_outside (p : Player) (m : Map) (w h : ℕ)
    (fb : FrameBuffer) (x1 x y : ℕ) (hx : x < fb.width)
    (hcond : x ≠ x1 ∨ ∀ hit, castColumn p m x1 w = some hit →
      ((y : ℤ) < drawStart h (lineHeight h hit.perpWallDist) ∨
        drawEnd h (lineHeight h hit.perpWallDist) ≤ (y : ℤ))) :
    (drawColumn p m w h fb x1).getCell x y = fb.getCell x y := by
  unfold drawColumn
  rcases hcc : castColumn p m x1 w with _ | hit
  · rfl
  · dsimp only
    apply getCell_foldl_set x1 _ _ _ _ fb x y hx
    rcases hcond with hcne | hcy
    · exact Or.inl hcne
    · right
      intro r hr
      have hy := hcy hit hcc
      have hds0 := drawStart_nonneg h (lineHeight h hit.perpWallDist)
      have hbounds := stripeRows_bounds hr
      omega

theorem drawColumn_width (p : Player) (m : Map) (w h : ℕ) (fb : FrameBuffer)
    (x1 : ℕ) : (drawColumn p m w h fb x1).width = fb.width := by
  unfold drawColumn
  rcases hcc : castColumn p m x1 w with _ | hit
  · rfl
  · dsimp only
    generalize stripeRows _ _ = rows
    induction rows generalizing fb with
    | nil => rfl
    | cons r rest ih => rw [List.foldl_cons, ih, set_width]

theorem getCell_foldl_drawColumn (p : Player) (m : Map) (w h : ℕ) :
    ∀ (cols : List ℕ) (fb : FrameBuffer) (x y : ℕ), x < fb.width →
      (∀ x1 ∈ cols, x ≠ x1 ∨ ∀ hit, castColumn p m x1 w = some hit →
        ((y : ℤ) < drawStart h (lineHeight h hit.perpWallDist) ∨
          drawEnd h (lineHeight h hit.perpWallDist) ≤ (y : ℤ))) →
      ((cols.foldl (drawColumn p m w h) fb).getCell x y = fb.getCell x y) := by
  intro cols
  induction cols with
  | nil => intros; rfl
  | cons c rest ih =>
    intro fb x y hx hcond
    rw [List.foldl_cons]
    rw [ih (drawColumn p m w h fb c) x y (by rw [drawColumn_width]; exact hx)
      fun x1 hx1 => hcond x1 (List.mem_cons_of_mem c hx1)]
    exact getCell_drawColumn_outside p m w h fb c x y hx
      (hcond c (List.mem_cons_self c rest))

/-- C10: for every screen column `x`, the vertical wall stripe drawn by
`render_frame` writes only rows `y` with `draw_start ≤ y < draw_end` of
that column — `draw_end` itself is exclusive — so every cell of column `x`
at a row outside `[draw_start, draw_end)` (in particular the row equal to
the clamped `draw_end`) is exactly the cell the input frame (as left by
`clear`) already held. -/
theorem c10_stripe_exclusive (p : Player) (m : Map) (fb : FrameBuffer)
    (x y : ℕ) (hx : x < fb.width) (hit : RayHit)
    (hcc : castColumn p m x fb.width = some hit)
    (hy : (y : ℤ) < drawStart fb.height (lineHeight fb.height hit.perpWallDist) ∨
      drawEnd fb.height (lineHeight fb.height hit.perpWallDist) ≤ (y : ℤ)) :
    (render_frame p m fb).getCell x y = fb.getCell x y := by
  unfold render_frame
  apply getCell_foldl_drawColumn p m fb.width fb.height (List.range fb.width)
    fb x y hx
  intro x1 _
  by_cases hxx : x = x1
  · subst hxx
    right
    intro hit2 hcc2
    rw [hcc, Option.some_inj] at hcc2
    rw [← hcc2]
    exact hy
  · exact Or.inl hxx

/-- Witness for C10: the corridor scene on a 1×10 frame; the stripe spans
rows `[3, 7)` and row `7 = draw_end` is untouched. -/
theorem c10_witness :
    ((0 : ℕ) < (FrameBuffer.new 1 10).width ∧
        castColumn axisPlayer (corridor 3) 0 (FrameBuffer.new 1 10).width =
          some ⟨((3 : ℕ) : ℚ) - 1 / 2, Material.SolidWall, 1, 0, (3 : ℤ)⟩ ∧
        drawEnd (FrameBuffer.new 1 10).height
            (lineHeight (FrameBuffer.new 1 10).height (((3 : ℕ) : ℚ) - 1 / 2)) ≤
          ((7 : ℕ) : ℤ)) ∧
      (render_frame axisPlayer (corridor 3) (FrameBuffer.new 1 10)).getCell 0 7 =
        (FrameBuffer.new 1 10).getCell 0 7 := by
  have hlh : lineHeight 10 (((3 : ℕ) : ℚ) - 1 / 2) = 4 := by
    unfold lineHeight
    rw [if_neg (by norm_num)]
    rw [show ((10 : ℕ) : ℚ) / (((3 : ℕ) : ℚ) - 1 / 2) = 4 by norm_num]
    exact ratToI32_of_trunc 4 4 (by rw [ratTrunc_eq]; norm_num) (by norm_num)
      (by norm_num)
  have hde : drawEnd (FrameBuffer.new 1 10).height
      (lineHeight (FrameBuffer.new 1 10).height (((3 : ℕ) : ℚ) - 1 / 2)) ≤
      ((7 : ℕ) : ℤ) := by
    show drawEnd 10 (lineHeight 10 (((3 : ℕ) : ℚ) - 1 / 2)) ≤ ((7 : ℕ) : ℤ)
    rw [hlh]
    unfold drawEnd
    decide
  have hcc : castColumn axisPlayer (corridor 3) 0 (FrameBuffer.new 1 10).width =
      some ⟨((3 : ℕ) : ℚ) - 1 / 2, Material.SolidWall, 1, 0, (3 : ℤ)⟩ :=
    corridor_castColumn 3 (by norm_num) (by norm_num)
  exact ⟨⟨by decide, hcc, hde⟩,
    c10_stripe_exclusive axisPlayer (corridor 3) (FrameBuffer.new 1 10) 0 7
      (by decide) _ hcc (Or.inr hde)⟩

/-! ## Claim theorems: flush color coalescing (C2) -/

theorem countColor_append (l1 l2 : List Directive) :
    countColorDirs (l1 ++ l2) = countColorDirs l1 + countColorDirs l2 :=
  List.countP_append _ _ _

theorem countColor_cons (d : Directive) (l : List Directive) :
    countColorDirs (d :: l) =
      countColorDirs l + (if isColorDir d then 1 else 0) :=
  List.countP_cons _ _ _

theorem rowDirs_uniform_same (c1 c2 : Color) :
    ∀ l : List (Char × Color × Color), (∀ c ∈ l, c.2.1 = c1 ∧ c.2.2 = c2) →
      countColorDirs (rowDirs l c1 c2).1 = 0 ∧ (rowDirs l c1 c2).2 = (c1, c2) := by
  intro l
  induction l with
  | nil => intro _; exact ⟨rfl, rfl⟩
  | cons c rest ih =>
    intro hu
    obtain ⟨hfg, hbg⟩ := hu c (List.mem_cons_self c rest)
    have hrest := ih fun d hd => hu d (List.mem_cons_of_mem c hd)
    simp only [rowDirs, hfg, hbg]
    rw [if_neg (fun hcon => hcon rfl), if_neg (fun hcon => hcon rfl)]
    refine ⟨?_, hrest.2⟩
    simp only [List.nil_append]
    rw [countColor_append, hrest.1]
    rfl

theorem rowDirs_uniform_fresh (c1 c2 : Color) (h1 : c1 ≠ Color.Reset)
    (h2 : c2 ≠ Color.Reset) (l : List (Char × Color × Color)) (hne : l ≠ [])
    (hu : ∀ c ∈ l, c.2.1 = c1 ∧ c.2.2 = c2) :
    countColorDirs (rowDirs l Color.Reset Color.Reset).1 = 2 ∧
      (rowDirs l Color.Reset Color.Reset).2 = (c1, c2) := by
  match l with
  | [] => exact absurd rfl hne
  | c :: rest =>
    obtain ⟨hfg, hbg⟩ := hu c (List.mem_cons_self c rest)
    have hrest := rowDirs_uniform_same c1 c2 rest
      fun d hd => hu d (List.mem_cons_of_mem c hd)
    simp only [rowDirs, hfg, hbg]
    rw [if_pos h1, if_pos h2]
    refine ⟨?_, hrest.2⟩
    rw [countColor_append, hrest.1]
    rfl

theorem rowsDirs_uniform_count (c1 c2 : Color) (h1 : c1 ≠ Color.Reset)
    (h2 : c2 ≠ Color.Reset) :
    ∀ rs : List (List (Char × Color × Color)),
      (∀ r ∈ rs, r ≠ [] ∧ ∀ c ∈ r, c.2.1 = c1 ∧ c.2.2 = c2) → rs ≠ [] →
      countColorDirs (rowsDirs rs Color.Reset Color.Reset) = 4 * rs.length - 2 := by
  intro rs
  induction rs with
  | nil => intro _ hne; exact absurd rfl hne
  | cons r rest ih =>
    intro hu _
    obtain ⟨hrne, hruni⟩ := hu r (List.mem_cons_self r rest)
    have hrow := rowDirs_uniform_fresh c1 c2 h1 h2 r hrne hruni
    match rest with
    | [] =>
      simp only [rowsDirs, List.length_cons, List.length_nil]
      rw [hrow.1]
    | r2 :: t =>
      have hrec := ih (fun d hd => hu d (List.mem_cons_of_mem r hd))
        (by simp)
      simp only [rowsDirs] at hrec ⊢
      rw [countColor_append, countColor_append, hrow.1, hrec]
      have hmid : countColorDirs [Directive.setFg Color.Reset,
          Directive.setBg Color.Reset, Directive.print "\r\n"] = 2 := rfl
      rw [hmid]
      simp only [List.length_cons]
      omega

theorem uniform_rowCells (fb : FrameBuffer) (c1 c2 : Color)
    (hfg : fb.fg_colors = List.replicate (fb.width * fb.height) c1)
    (hbg : fb.bg_colors = List.replicate (fb.width * fb.height) c2)
    (y : ℕ) (hy : y < fb.height) :
    ∀ c ∈ fb.rowCells y, c.2.1 = c1 ∧ c.2.2 = c2 := by
  intro c hc
  simp only [FrameBuffer.rowCells, List.mem_map, List.mem_range] at hc
  obtain ⟨x, hx, rfl⟩ := hc
  have hidx : y * fb.width + x < fb.width * fb.height :=
    calc y * fb.width + x < (y + 1) * fb.width := by
          rw [Nat.add_mul, Nat.one_mul]; omega
    _ ≤ fb.height * fb.width := Nat.mul_le_mul_right fb.width (by omega)
    _ = fb.width * fb.height := Nat.mul_comm _ _
  simp only [FrameBuffer.getCell, hfg, hbg]
  constructor <;>
    simp [List.getElem?_replicate_of_lt hidx]

/-- C2 fails on the code: a uniformly colored 1×2 frame produces 6
color-change directives, not 2, because both colors are unconditionally
reset between consecutive rows and re-established in the next row. -/
theorem c2_counterexample :
    countColorDirs
        (mkUniform 1 2 (Color.Rgb 180 0 0) (Color.AnsiValue 234)).renderDirectives ≠
      2 := by
  decide

/-- C2 (amended): for a frame whose cells all share one foreground color
`c1 ≠ Reset` and one background color `c2 ≠ Reset` (width and height
positive), the flush emits exactly `4 * height - 2` color-change
directives: one foreground and one background change per row, plus an
unconditional foreground and background reset after each row but the last.
For `height = 1` this is the 2 of the original claim; the total depends on
the height, not on the width. -/
theorem c2_uniform_flush_directives (fb : FrameBuffer) (c1 c2 : Color)
    (hw : 0 < fb.width) (hh : 0 < fb.height)
    (h1 : c1 ≠ Color.Reset) (h2 : c2 ≠ Color.Reset)
    (hfg : fb.fg_colors = List.replicate (fb.width * fb.height) c1)
    (hbg : fb.bg_colors = List.replicate (fb.width * fb.height) c2) :
    countColorDirs fb.renderDirectives = 4 * fb.height - 2 := by
  have hrows : ∀ r ∈ (List.range fb.height).map fb.rowCells,
      r ≠ [] ∧ ∀ c ∈ r, c.2.1 = c1 ∧ c.2.2 = c2 := by
    intro r hr
    simp only [List.mem_map, List.mem_range] at hr
    obtain ⟨y, hy, rfl⟩ := hr
    refine ⟨?_, uniform_rowCells fb c1 c2 hfg hbg y hy⟩
    simp only [FrameBuffer.rowCells, ne_eq, List.map_eq_nil_iff,
      List.range_eq_nil]
    omega
  have hmain := rowsDirs_uniform_count c1 c2 h1 h2
    ((List.range fb.height).map fb.rowCells) hrows
    (by simp only [ne_eq, List.map_eq_nil_iff, List.range_eq_nil]; omega)
  simp only [List.length_map, List.length_range] at hmain
  unfold FrameBuffer.renderDirectives
  rw [countColor_append, countColor_append, hmain]
  have hh1 : countColorDirs [Directive.hideCursor, Directive.moveTo 0 0] = 0 := rfl
  have hh2 : countColorDirs [Directive.flushOut] = 0 := rfl
  rw [hh1, hh2]
  omega

/-- Witness for C2 (amended): a uniformly colored 2×3 frame emits
`4 * 3 - 2 = 10` color-change directives. -/
theorem c2_witness :
    (0 < (mkUniform 2 3 (Color.Rgb 180 0 0) (Color.AnsiValue 234)).width ∧
        0 < (mkUniform 2 3 (Color.Rgb 180 0 0) (Color.AnsiValue 234)).height ∧
        Color.Rgb 180 0 0 ≠ Color.Reset ∧ Color.AnsiValue 234 ≠ Color.Reset) ∧
      countColorDirs
          (mkUniform 2 3 (Color.Rgb 180 0 0) (Color.AnsiValue 234)).renderDirectives =
        4 * (mkUniform 2 3 (Color.Rgb 180 0 0) (Color.AnsiValue 234)).height - 2 :=
  ⟨⟨by decide, by decide, by decide, by decide⟩,
    c2_uniform_flush_directives _ (Color.Rgb 180 0 0) (Color.AnsiValue 234)
      (by decide) (by decide) (by decide) (by decide) rfl rfl⟩

/-! ## Claim theorems: flush failure leaves the buffer intact (C9) -/

/-- C9: when the flush of the frame buffer to the display sink fails
partway (the `Bool` component of `runRender` is `false`, the propagated
I/O error), the frame buffer the caller holds afterwards is exactly the
one it passed in: `FrameBuffer::render` borrows the buffer immutably and
the embedding threads it through unchanged, so a retry on the next frame
is safe. -/
theorem c9_render_error_preserves_buffer (fb : FrameBuffer) (s : Sink)
    (_h : (runRender fb s).2.2 = false) : (runRender fb s).1 = fb := rfl

/-- Witness for C9: a 1×1 buffer flushed to a sink that fails on its very
first command. -/
theorem c9_witness :
    (runRender (FrameBuffer.new 1 1) ⟨[], some 0⟩).2.2 = false ∧
      (runRender (FrameBuffer.new 1 1) ⟨[], some 0⟩).1 = FrameBuffer.new 1 1 :=
  ⟨by decide, c9_render_error_preserves_buffer (FrameBuffer.new 1 1)
    ⟨[], some 0⟩ (by decide)⟩

end Soltren
